import Mathlib

/-!
Verification development for the rondiveTV remote media download pipeline
(`src/app/api/download/route.ts` and the proxy gateway route).

The TypeScript source is shallowly embedded: pure functions become Lean
functions over `List Char` / `String`; platform primitives (`fetch`,
`new URL`, the shared cache) become explicit oracle parameters or explicit
state passing.  Machine numbers are modelled with `Nat` / `Int` / `Rat`.
-/

namespace RondiveTV

/-! ## JavaScript string primitives -/

/-- JS whitespace (the characters relevant to `String.prototype.trim`,
`\s` in regexes, and blank-line tests in this code base). -/
def isJsWs (c : Char) : Bool :=
  c = ' ' || c = '\t' || c = '\n' || c = '\r' ||
  c = Char.ofNat 11 || c = Char.ofNat 12 ||
  c = Char.ofNat 0xa0 || c = Char.ofNat 0xfeff ||
  c = Char.ofNat 0x2028 || c = Char.ofNat 0x2029

/-- `String.prototype.trim` on a char list. -/
def jsTrimList (cs : List Char) : List Char :=
  ((cs.dropWhile isJsWs).reverse.dropWhile isJsWs).reverse

def jsTrim (s : String) : String :=
  (jsTrimList s.data).asString

/-- ASCII lower-casing, matching `toLowerCase` on the ASCII inputs used here. -/
def lowerList (cs : List Char) : List Char :=
  cs.map Char.toLower

def jsLower (s : String) : String :=
  (lowerList s.data).asString

/-- Does `pat` occur as a prefix of `cs`? -/
def listStartsWith : List Char → List Char → Bool
  | [], _ => true
  | _ :: _, [] => false
  | p :: ps, c :: cs => p = c && listStartsWith ps cs

/-- Case-insensitive (ASCII) prefix test. -/
def listStartsWithCI (pat cs : List Char) : Bool :=
  listStartsWith (lowerList pat) (lowerList cs)

def strStartsWith (s pat : String) : Bool :=
  listStartsWith pat.data s.data

/-- Does `pat` occur as a substring of `cs`? -/
def listContainsSub (pat : List Char) : List Char → Bool
  | [] => listStartsWith pat []
  | c :: cs => listStartsWith pat (c :: cs) || listContainsSub pat cs

/-- Case-insensitive substring test. -/
def listContainsSubCI (pat cs : List Char) : Bool :=
  listContainsSub (lowerList pat) (lowerList cs)

/-- Does `pat` occur as a suffix of `cs`? -/
def listEndsWith (pat cs : List Char) : Bool :=
  listStartsWith pat.reverse cs.reverse

def strEndsWith (s pat : String) : Bool :=
  listEndsWith pat.data s.data

/-- Split a char list on a separator character (JS `split(sep)` semantics:
adjacent separators yield empty pieces). -/
def splitOnChar (sep : Char) : List Char → List (List Char)
  | [] => [[]]
  | c :: cs =>
    let rest := splitOnChar sep cs
    if c = sep then [] :: rest
    else
      match rest with
      | [] => [[c]]
      | piece :: more => (c :: piece) :: more

/-- `content.split(/\r?\n/)`: split on LF, then drop one trailing CR from
each piece (a lone CR is not a separator). -/
def splitLinesList (cs : List Char) : List (List Char) :=
  (splitOnChar '\n' cs).map (fun piece =>
    match piece.reverse with
    | '\r' :: rest => rest.reverse
    | _ => piece)

def splitLines (s : String) : List String :=
  (splitLinesList s.data).map List.asString

/-- Index of the first occurrence of a character (JS `indexOf`), if any. -/
def firstIndexOf (sep : Char) : List Char → Option Nat
  | [] => none
  | c :: cs =>
    if c = sep then some 0
    else (firstIndexOf sep cs).map (· + 1)

/-! ## Quota manager (C2)

Embeds `checkAndConsumeQuota` (route.ts lines 1149–1203) and the
`refundQuota` closure (lines 1300–1316).  The shared cache entry for the
per-user-per-day key is modelled as explicit state `Option Int`
(`none` = key absent; `db.getCache` returning `null` feeds `toNumber`,
which yields `0`).  `Math.max(0, Math.floor(toNumber(raw, 0)))` on an
integer-valued cache entry is `max 0 raw`. -/

structure QuotaResult where
  allowed : Bool
  remaining : Option Int
  deriving Repr, DecidableEq

/-- Current counter value as read by the route: `Math.max(0, Math.floor(toNumber(raw, 0)))`. -/
def quotaReadCount (st : Option Int) : Int :=
  max 0 (st.getD 0)

/-- `checkAndConsumeQuota` on explicit cache state; returns the HTTP-level
result together with the new state of the counter key.  The cache-error
branch (fail-open) is not taken in this pure model. -/
def checkAndConsumeQuota (limitEnabled : Bool) (limitPerDay : Int)
    (checkOnly : Bool) (st : Option Int) : QuotaResult × Option Int :=
  if !limitEnabled then
    (⟨true, none⟩, st)
  else if limitPerDay ≤ 0 then
    (⟨false, some 0⟩, st)
  else
    let currentCount := quotaReadCount st
    if currentCount ≥ limitPerDay then
      (⟨false, some 0⟩, st)
    else if checkOnly then
      (⟨true, some (max 0 (limitPerDay - currentCount))⟩, st)
    else
      (⟨true, some (max 0 (limitPerDay - (currentCount + 1)))⟩,
        some (currentCount + 1))

/-- `refundQuota`: decrement the same key, never below zero (only when the
limit is enabled and a consuming call produced a cache key). -/
def refundQuota (limitEnabled : Bool) (st : Option Int) : Option Int :=
  if !limitEnabled then st
  else
    let currentCount := quotaReadCount st
    if currentCount > 0 then some (currentCount - 1) else st

lemma checkOnly_preserves_state (le : Bool) (lim : Int) (st : Option Int) :
    (checkAndConsumeQuota le lim true st).2 = st := by
  unfold checkAndConsumeQuota
  dsimp only
  split_ifs
  all_goals first
  | rfl
  | simp_all

lemma quotaReadCount_some (n : Int) : quotaReadCount (some n) = max 0 n := rfl

lemma refund_decrements_never_below_zero (st : Option Int) :
    quotaReadCount (refundQuota true st) = max 0 (quotaReadCount st - 1) := by
  cases st with
  | none => rfl
  | some n =>
    rw [show refundQuota true (some n)
        = if max 0 n > 0 then some (max 0 n - 1) else some n from rfl]
    split_ifs with h
    · rw [quotaReadCount_some, quotaReadCount_some]
    · simp only [quotaReadCount_some] at h ⊢
      omega

/-! ## Playlist duration and output validation (C6)

Embeds `isVodPlaylist` (route.ts line 1001), `parsePlaylistDurationMs`
(lines 983–999), the `expectedDurationMs` assignment (lines 1517–1521) and
the post-subprocess output validation (lines 1820–1833). -/

def natOfDigits (cs : List Char) : Nat :=
  cs.foldl (fun a c => a * 10 + (c.toNat - 48)) 0

/-- Exact decimal value `num / 10 ^ scale`, used for `#EXTINF` duration
arithmetic (the doubles produced by `parseFloat` carry exact decimal inputs
at this granularity). -/
structure Decimal where
  num : Nat
  scale : Nat
  deriving Repr, DecidableEq

def Decimal.add (a b : Decimal) : Decimal :=
  let s := max a.scale b.scale
  ⟨a.num * 10 ^ (s - a.scale) + b.num * 10 ^ (s - b.scale), s⟩

/-- `Number.parseFloat` restricted to strings of digits and dots (the only
inputs produced by the `[\d.]+` capture): digits, optional dot, digits;
parsing stops at a second dot; NaN (`none`) when no digit was read. -/
def parseFloatDigitsDots (cs : List Char) : Option Decimal :=
  let d1 := cs.takeWhile Char.isDigit
  let rest := cs.drop d1.length
  let d2 :=
    match rest with
    | '.' :: rest2 => rest2.takeWhile Char.isDigit
    | _ => []
  if d1.isEmpty && d2.isEmpty then none
  else some ⟨natOfDigits d1 * 10 ^ d2.length + natOfDigits d2, d2.length⟩

/-- `Math.round(d * 1000)` for a non-negative exact decimal:
`⌊1000 · num / 10^scale + 1/2⌋` computed on naturals. -/
def roundTimes1000 (d : Decimal) : Nat :=
  (2 * 1000 * d.num + 10 ^ d.scale) / (2 * 10 ^ d.scale)

/-- `isVodPlaylist`: `/#EXT-X-ENDLIST/i.test(content)`. -/
def isVodPlaylist (content : String) : Bool :=
  listContainsSubCI "#EXT-X-ENDLIST".data content.data

/-- `parsePlaylistDurationMs`: sum the `^#EXTINF:([\d.]+)` captures of every
trimmed line, returning `Math.round(total * 1000)`; `null` when no line
contributed a finite duration. -/
def parsePlaylistDurationMs (content : String) : Option Int :=
  let step := fun (acc : Decimal × Bool) (line : String) =>
    let t := jsTrimList line.data
    if !listStartsWith "#EXTINF:".data t then acc
    else
      let cap := (t.drop 8).takeWhile (fun c => c.isDigit || c = '.')
      if cap.isEmpty then acc
      else
        match parseFloatDigitsDots cap with
        | none => acc
        | some q => (acc.1.add q, true)
  let r := (splitLines content).foldl step (⟨0, 0⟩, false)
  if r.2 then some ((roundTimes1000 r.1 : Nat) : Int) else none

/-- The `expectedDurationMs` assignment of `runAttempt`:
`isVodPlaylist(c) && parsePlaylistDurationMs(c) ? parsePlaylistDurationMs(c) : null`
(a parsed total of `0` is falsy and becomes `null`). -/
def computeExpectedDurationMs (content : String) : Option Int :=
  if isVodPlaylist content then
    match parsePlaylistDurationMs content with
    | some d => if d ≠ 0 then some d else none
    | none => none
  else none

/-- `attemptDurationMs = ffmpegResult.outTimeMs ? Math.round(ffmpegResult.outTimeMs) : null`
where `outTimeMs` is the parsed `out_time_ms` value (microseconds) divided by
1000.  A reported value of `0` is falsy and yields `null`. -/
def attemptDurationMsOfMicros (micros : Nat) : Option Int :=
  if micros = 0 then none else some (((micros + 500) / 1000 : Nat) : Int)

/-- The output validation after a zero exit code (route.ts lines 1820–1833):
`true` means the attempt is accepted.  The float comparison
`attemptDurationMs < expectedDurationMs * 0.9` on integer millisecond values
is exactly `10 * a < 9 * e` (the double `0.9` is close enough to `9/10` that
no integer pair below 2^52 distinguishes them). -/
def validateOutput (statsSize : Option Int) (expected attemptDur : Option Int) : Bool :=
  match statsSize with
  | none => false
  | some size =>
    if size ≤ 0 then false
    else
      match expected, attemptDur with
      | some e, some a => if e ≠ 0 && a ≠ 0 && 10 * a < 9 * e then false else true
      | _, _ => true

lemma computeExpectedDurationMs_ne_zero (content : String) (e : Int)
    (h : computeExpectedDurationMs content = some e) : e ≠ 0 := by
  unfold computeExpectedDurationMs at h
  split at h
  · split at h
    · split at h
      · injection h with h2
        omega
      · exact absurd h (by simp)
    · exact absurd h (by simp)
  · exact absurd h (by simp)

/-- C6 (corrected): after a transcoder run with exit code 0, the attempt is
still treated as failed when the output file is missing or empty, or when the
playlist declared a total expected duration and the transcoder reported a
*nonzero* elapsed output time below 90% of it.  (A reported elapsed time of
0, being falsy, skips the duration check — see the counterexample.) -/
theorem validateOutput_failure_conditions :
    (∀ e a, validateOutput none e a = false) ∧
    (∀ (size : Int) (e a : Option Int), size ≤ 0 →
      validateOutput (some size) e a = false) ∧
    (∀ (content : String) (e size a : Int),
      computeExpectedDurationMs content = some e →
      a ≠ 0 → 10 * a < 9 * e →
      validateOutput (some size) (some e) (some a) = false) := by
  refine ⟨fun e a => rfl, ?_, ?_⟩
  · intro size e a hsz
    simp [validateOutput, hsz]
  · intro content e size a hc ha hlt
    have he : e ≠ 0 := computeExpectedDurationMs_ne_zero content e hc
    unfold validateOutput
    by_cases hsz : size ≤ 0
    · simp [hsz]
    · simp [hsz, he, ha, hlt]

/-- Witness for C6: a concrete incomplete run (size 100 bytes, expected
10000 ms, reported 5000 ms) is rejected. -/
theorem validateOutput_failure_conditions_witness :
    validateOutput (some 100)
      (some ((10000 : Int))) (some 5000) = false := by
  have h := validateOutput_failure_conditions.2.2
    "#EXTM3U\n#EXTINF:10.0,\nseg1.ts\n#EXT-X-ENDLIST" 10000 100 5000
    (by decide) (by decide) (by decide)
  exact h

/-- Counterexample to C6 as stated: the playlist declares a 10000 ms total
duration, the transcoder reports an elapsed output time of 0 (0 < 90% of
10000 ms), the output file is non-empty — yet the attempt is accepted,
because a reported `out_time_ms` of 0 is falsy and the duration check is
skipped. -/
theorem validateOutput_zero_elapsed_counterexample :
    computeExpectedDurationMs "#EXTM3U\n#EXTINF:10.0,\nseg1.ts\n#EXT-X-ENDLIST"
      = some 10000 ∧
    attemptDurationMsOfMicros 0 = none ∧
    validateOutput (some 100)
      (computeExpectedDurationMs "#EXTM3U\n#EXTINF:10.0,\nseg1.ts\n#EXT-X-ENDLIST")
      (attemptDurationMsOfMicros 0) = true := by
  refine ⟨by decide, by decide, by decide⟩

/-! ## Proxy gateway (C7)

Embeds the request-decision pipeline of the segment-proxy `GET` handler
(the unnamed route file, lines 95–174): token validation against the shared
cache, URL decoding/parsing, scheme and private-host checks, and the
image-extension rejection.  `new URL` is an oracle `parts`; the shared cache
is an oracle `cache`; `Buffer.from(..., 'base64url')` (which never throws)
is an oracle `decodeB64url`. -/

structure URLParts where
  protocol : String
  hostname : String
  pathname : String
  deriving Repr, DecidableEq

structure ProxyTokenData where
  referer : Option String
  userAgent : Option String
  origin : Option String
  cookie : Option String
  authorization : Option String
  allowImageSegments : Bool
  allowEncryptedImageSegments : Bool
  deriving Repr, DecidableEq

/-- `isPrivateHost`, shared by the download route and the proxy route. -/
def isPrivate172 (cs : List Char) : Bool :=
  match cs with
  | '1' :: '7' :: '2' :: '.' :: a :: b :: '.' :: _ =>
    (a = '1' && ('6' ≤ b && b ≤ '9')) ||
    (a = '2' && b.isDigit) ||
    (a = '3' && (b = '0' || b = '1'))
  | _ => false

def isPrivateHost (host : String) : Bool :=
  let lower := jsLower host
  lower = "localhost" || lower = "::1" ||
  strStartsWith lower "127." || strStartsWith lower "0." ||
  strStartsWith lower "10." || isPrivate172 lower.data ||
  strStartsWith lower "192.168."

/-- `/\.(jpg|jpeg|png|gif|webp|bmp|svg|ico)$/.test(pathLower)`. -/
def imageExtTest (pathLower : String) : Bool :=
  ["jpg", "jpeg", "png", "gif", "webp", "bmp", "svg", "ico"].any
    (fun e => strEndsWith pathLower ("." ++ e))

/-- JS falsiness of `searchParams.get(...)` results (`null` or `""`). -/
def jsFalsyStr (o : Option String) : Bool :=
  o.isNone || o = some ""

inductive ProxyOutcome where
  | reject (status : Nat) (body : String)
  | fetchUpstream (url : String)
  deriving Repr, DecidableEq

/-- The proxy `GET` decision pipeline up to the upstream fetch. -/
def proxyGet (parts : String → Option URLParts)
    (cache : String → Option ProxyTokenData)
    (decodeB64url : String → String)
    (requestHost : Option String)
    (encodedParam urlParam token : Option String) : ProxyOutcome :=
  if jsFalsyStr encodedParam && jsFalsyStr urlParam then
    .reject 400 "Missing url"
  else if jsFalsyStr token then
    .reject 403 "Unauthorized"
  else
    match cache ("download-proxy:" ++ token.getD "") with
    | none => .reject 403 "Unauthorized"
    | some tokenData =>
      let resolvedUrl :=
        if !jsFalsyStr encodedParam then decodeB64url (encodedParam.getD "")
        else urlParam.getD ""
      match parts resolvedUrl with
      | none => .reject 400 "Invalid url"
      | some u =>
        if !(u.protocol = "http:" || u.protocol = "https:") then
          .reject 400 "Unsupported protocol"
        else if isPrivateHost u.hostname &&
            !(requestHost = some (jsLower u.hostname)) then
          .reject 403 "Blocked host"
        else if !tokenData.allowImageSegments && imageExtTest (jsLower u.pathname) then
          .reject 422 "Unsupported segment type"
        else
          .fetchUpstream resolvedUrl

/-- C7 (corrected): an expired/unknown (or missing) token yields the
unauthorized response; a valid token whose stored context does not permit
image segments, targeting an image-extension path, yields status 422 with
the body "Unsupported segment type" (not "Unexpected segment content-type",
which this route uses for upstream content-type rejections at status 502). -/
theorem proxyGet_image_rejection :
    (∀ parts cache dec rh (ep up tk : Option String),
      ¬(jsFalsyStr ep && jsFalsyStr up) = true →
      jsFalsyStr tk = true →
      proxyGet parts cache dec rh ep up tk = .reject 403 "Unauthorized") ∧
    (∀ parts (cache : String → Option ProxyTokenData) dec rh (ep up : Option String) (tk : String),
      ¬(jsFalsyStr ep && jsFalsyStr up) = true →
      tk ≠ "" →
      cache ("download-proxy:" ++ tk) = none →
      proxyGet parts cache dec rh ep up (some tk) = .reject 403 "Unauthorized") ∧
    (∀ (parts : String → Option URLParts) (cache : String → Option ProxyTokenData)
        dec rh (up tk : String) (td : ProxyTokenData) (u : URLParts),
      up ≠ "" → tk ≠ "" →
      cache ("download-proxy:" ++ tk) = some td →
      td.allowImageSegments = false →
      parts up = some u →
      u.protocol = "http:" →
      isPrivateHost u.hostname = false →
      imageExtTest (jsLower u.pathname) = true →
      proxyGet parts cache dec rh none (some up) (some tk)
        = .reject 422 "Unsupported segment type") := by
  refine ⟨?_, ?_, ?_⟩
  · intro parts cache dec rh ep up tk hu htk
    unfold proxyGet
    rw [if_neg (by simpa using hu), if_pos htk]
  · intro parts cache dec rh ep up tk hu htk hc
    unfold proxyGet
    rw [if_neg (by simpa using hu),
      if_neg (by simp [jsFalsyStr, htk])]
    simp only [Option.getD_some]
    rw [hc]
  · intro parts cache dec rh up tk td u hup htk hc hallow hparts hproto hpriv himg
    unfold proxyGet
    rw [if_neg (by simp [jsFalsyStr, hup]),
      if_neg (by simp [jsFalsyStr, htk])]
    simp only [Option.getD_some]
    rw [hc]
    simp only [jsFalsyStr, Option.isNone_none, Bool.true_or, Bool.not_true,
      Bool.false_eq_true, if_false]
    rw [hparts]
    simp [hproto, hpriv, hallow, himg]

/-- Witness for C7: concrete oracle instantiations exercising both the
unknown-token branch and the image-extension 422 branch. -/
theorem proxyGet_image_rejection_witness :
    proxyGet (fun _ => none) (fun _ => none) (fun s => s) none
        none (some "http://cdn.example.com/seg1.jpg") (some "tokX")
      = .reject 403 "Unauthorized" ∧
    proxyGet
        (fun s => if s = "http://cdn.example.com/seg1.jpg" then
          some ⟨"http:", "cdn.example.com", "/seg1.jpg"⟩ else none)
        (fun k => if k = "download-proxy:tok1" then
          some ⟨none, none, none, none, none, false, false⟩ else none)
        (fun s => s) (some "myhost")
        none (some "http://cdn.example.com/seg1.jpg") (some "tok1")
      = .reject 422 "Unsupported segment type" := by
  constructor
  · exact proxyGet_image_rejection.2.1 (fun _ => none) (fun _ => none)
      (fun s => s) none none (some "http://cdn.example.com/seg1.jpg") "tokX"
      (by decide) (by decide) rfl
  · exact proxyGet_image_rejection.2.2
      (fun s => if s = "http://cdn.example.com/seg1.jpg" then
        some ⟨"http:", "cdn.example.com", "/seg1.jpg"⟩ else none)
      (fun k => if k = "download-proxy:tok1" then
        some ⟨none, none, none, none, none, false, false⟩ else none)
      (fun s => s) (some "myhost")
      "http://cdn.example.com/seg1.jpg" "tok1"
      ⟨none, none, none, none, none, false, false⟩
      ⟨"http:", "cdn.example.com", "/seg1.jpg"⟩
      (by decide) (by decide) (by decide) rfl (by decide) rfl (by decide) (by decide)

/-- Counterexample to C7 as stated: the 422 response body is
"Unsupported segment type"; the literal "Unexpected segment content-type"
message (claimed by the spec for this branch) appears only in the 502
content-type rejections. -/
theorem proxyGet_message_counterexample :
    proxyGet
        (fun s => if s = "http://cdn.example.com/seg1.jpg" then
          some ⟨"http:", "cdn.example.com", "/seg1.jpg"⟩ else none)
        (fun k => if k = "download-proxy:tok1" then
          some ⟨none, none, none, none, none, false, false⟩ else none)
        (fun s => s) (some "myhost")
        none (some "http://cdn.example.com/seg1.jpg") (some "tok1")
      = .reject 422 "Unsupported segment type" ∧
    ("Unsupported segment type" : String) ≠ "Unexpected segment content-type" := by
  refine ⟨by decide, by decide⟩

/-! ## Segment download retry policy (C8)

Embeds `downloadFileWithRetry` (route.ts lines 657–686), the effective
retry/timeout configuration (lines 808–822) and the outcome of the worker
pool `Promise.all` (lines 874–900).  The outcome of the `attempt`-th
fetch+write is an oracle `ok : Nat → Bool`; `signal.aborted` as observed in
the catch block is an oracle `ab : Nat → Bool`.  The same `timeoutMs` value
is passed unchanged to `fetchWithTimeout` on every attempt. -/

/-- `Math.max(0, Math.floor(toNumber(env.DOWNLOAD_SEGMENT_RETRY, 2)))`;
`none` models an unset variable or one that does not parse to a finite
number. -/
def effectiveSegmentRetries (env : Option Int) : Int :=
  max 0 (env.getD 2)

/-- `Math.max(5000, Math.floor(toNumber(env.DOWNLOAD_SEGMENT_TIMEOUT_MS, 25000)))`. -/
def effectiveSegmentTimeoutMs (env : Option Int) : Int :=
  max 5000 (env.getD 25000)

/-- The retry loop of `downloadFileWithRetry`, returning success and the
list of backoff delays (in ms) slept before each retry.  Fuel is
`retries + 1 - attempt`, enough for every reachable attempt. -/
def downloadRetryGo (ok ab : Nat → Bool) (retries : Nat) : Nat → Nat → Bool × List Nat
  | _, 0 => (false, [])
  | attempt, fuel + 1 =>
    if ok attempt then (true, [])
    else if ab attempt then (false, [])
    else if retries ≤ attempt then (false, [])
    else
      let rest := downloadRetryGo ok ab retries (attempt + 1) fuel
      (rest.1, 400 * (attempt + 1) :: rest.2)

def downloadFileWithRetry (ok ab : Nat → Bool) (retries : Nat) : Bool × List Nat :=
  downloadRetryGo ok ab retries 0 (retries + 1)

/-- The `Promise.all` outcome of the worker pool: it resolves successfully
iff every segment download resolved (any worker rejection aborts the whole
pool).  `segOk s i` is the outcome of segment `s`'s attempt `i`. -/
def poolDownloadAll (segOk : Nat → Nat → Bool) (ab : Nat → Bool)
    (retries n : Nat) : Bool :=
  (List.range n).all (fun s => (downloadFileWithRetry (segOk s) ab retries).1)

lemma downloadRetryGo_length_le (ok ab : Nat → Bool) (retries : Nat) :
    ∀ (fuel attempt : Nat), attempt + fuel = retries + 1 →
      (downloadRetryGo ok ab retries attempt fuel).2.length ≤ retries - attempt := by
  intro fuel
  induction fuel with
  | zero => intro attempt _; simp [downloadRetryGo]
  | succ f ih =>
    intro attempt hfa
    unfold downloadRetryGo
    split_ifs with h1 h2 h3
    · simp
    · simp
    · simp
    · have hrec := ih (attempt + 1) (by omega)
      simp only [List.length_cons]
      omega

lemma downloadRetryGo_delays_shape (ok ab : Nat → Bool) (retries : Nat) :
    ∀ (fuel attempt : Nat), attempt + fuel = retries + 1 →
      ∃ k, k ≤ retries - attempt ∧
        (downloadRetryGo ok ab retries attempt fuel).2 =
          (List.range k).map (fun i => 400 * (attempt + 1 + i)) := by
  intro fuel
  induction fuel with
  | zero => intro attempt _; exact ⟨0, by omega, by simp [downloadRetryGo]⟩
  | succ f ih =>
    intro attempt hfa
    unfold downloadRetryGo
    split_ifs with h1 h2 h3
    · exact ⟨0, by omega, by simp⟩
    · exact ⟨0, by omega, by simp⟩
    · exact ⟨0, by omega, by simp⟩
    · obtain ⟨k, hk, hshape⟩ := ih (attempt + 1) (by omega)
      refine ⟨k + 1, by omega, ?_⟩
      simp only [List.range_succ_eq_map, List.map_cons, List.map_map]
      refine List.cons_eq_cons.mpr ⟨by omega, ?_⟩
      rw [hshape]
      apply List.map_congr_left
      intro i _
      simp only [Function.comp_apply]
      omega

lemma downloadRetryGo_all_fail (ok ab : Nat → Bool) (retries : Nat)
    (hfail : ∀ i, ok i = false) :
    ∀ (fuel attempt : Nat), (downloadRetryGo ok ab retries attempt fuel).1 = false := by
  intro fuel
  induction fuel with
  | zero => intro attempt; rfl
  | succ f ih =>
    intro attempt
    unfold downloadRetryGo
    rw [hfail attempt]
    simp only [Bool.false_eq_true, if_false]
    split_ifs with h2 h3
    · rfl
    · rfl
    · exact ih (attempt + 1)

/-- C8: every key/init-map/segment download is attempted at most
`1 + retries` times (at most `retries` backoff sleeps), with `retries`
defaulting to 2 and the per-request timeout defaulting to 25000 ms; the
backoff slept before the k-th retry is `k × 400` ms; and if every attempt
of some segment fails, the retry helper rejects and the whole pool
operation fails. -/
theorem downloadFileWithRetry_policy :
    effectiveSegmentRetries none = 2 ∧
    effectiveSegmentTimeoutMs none = 25000 ∧
    (∀ (ok ab : Nat → Bool) (retries : Nat),
      (downloadFileWithRetry ok ab retries).2.length ≤ retries) ∧
    (∀ (ok ab : Nat → Bool) (retries : Nat),
      ∃ k, k ≤ retries ∧
        (downloadFileWithRetry ok ab retries).2 =
          (List.range k).map (fun i => 400 * (i + 1))) ∧
    (∀ (ok ab : Nat → Bool) (retries : Nat), (∀ i, ok i = false) →
      (downloadFileWithRetry ok ab retries).1 = false) ∧
    (∀ (segOk : Nat → Nat → Bool) (ab : Nat → Bool) (retries n s : Nat),
      s < n → (∀ i, segOk s i = false) →
      poolDownloadAll segOk ab retries n = false) := by
  refine ⟨rfl, rfl, ?_, ?_, ?_, ?_⟩
  · intro ok ab retries
    have h := downloadRetryGo_length_le ok ab retries (retries + 1) 0 (by omega)
    simpa [downloadFileWithRetry] using h
  · intro ok ab retries
    obtain ⟨k, hk, hshape⟩ :=
      downloadRetryGo_delays_shape ok ab retries (retries + 1) 0 (by omega)
    refine ⟨k, by omega, ?_⟩
    rw [show downloadFileWithRetry ok ab retries
      = downloadRetryGo ok ab retries 0 (retries + 1) from rfl, hshape]
    apply List.map_congr_left
    intro i _
    omega
  · intro ok ab retries hfail
    exact downloadRetryGo_all_fail ok ab retries hfail (retries + 1) 0
  · intro segOk ab retries n s hs hfail
    have hfalse : (downloadFileWithRetry (segOk s) ab retries).1 = false :=
      downloadRetryGo_all_fail (segOk s) ab retries hfail (retries + 1) 0
    unfold poolDownloadAll
    rw [List.all_eq_false]
    exact ⟨s, List.mem_range.mpr hs, by simp [hfalse]⟩

/-- Witness for C8: with all attempts failing and `retries = 2`, exactly the
backoffs 400 ms and 800 ms are slept, the download rejects, and a pool of 6
segments fails as a whole. -/
theorem downloadFileWithRetry_policy_witness :
    (downloadFileWithRetry (fun _ => false) (fun _ => false) 2).1 = false ∧
    (downloadFileWithRetry (fun _ => false) (fun _ => false) 2).2 = [400, 800] ∧
    poolDownloadAll (fun _ _ => false) (fun _ => false) 2 6 = false := by
  refine ⟨?_, by decide, ?_⟩
  · exact downloadFileWithRetry_policy.2.2.2.2.1 (fun _ => false) (fun _ => false) 2
      (fun _ => rfl)
  · exact downloadFileWithRetry_policy.2.2.2.2.2 (fun _ _ => false) (fun _ => false) 2 6 0
      (by decide) (fun _ => rfl)

/-! ## Transcoder argument narrowing (C3)

Embeds `detectUnsupportedFfmpegOptions` (route.ts lines 443–460), the
conditional argument construction `buildArgs` (lines 1600–1618) and the
narrowing retry loop (lines 1759–1803).  The subprocess is an oracle
`run : FfArgOptions → FfRun` giving exit status and captured stderr per
option state; `unsupportedOptions` is recomputed from stderr exactly as the
route does.  The scanners translate the three `stderr` regexes
(`Unrecognized option quoted-name`, `Option name not found`,
`Unknown option optionally-quoted-name`), all case-insensitive and global,
with JS one-char advance on a failed position. -/

/-- The ASCII single-quote character (written via its code to keep source
hygiene). -/
def sq : Char := Char.ofNat 39

/-- Split at the first occurrence of `stop`, returning the part before it
and the part after it. -/
def takeToChar (stop : Char) : List Char → Option (List Char × List Char)
  | [] => none
  | c :: cs =>
    if c = stop then some ([], cs)
    else
      match takeToChar stop cs with
      | none => none
      | some (pre, post) => some (c :: pre, post)

def unrecognizedLit : List Char := "Unrecognized option ".data ++ [sq]

/-- All captures of `/Unrecognized option .../gi` (quoted name). -/
def scanUnrecognizedGo : Nat → List Char → List (List Char)
  | 0, _ => []
  | _ + 1, [] => []
  | fuel + 1, c :: cs =>
    if listStartsWithCI unrecognizedLit (c :: cs) then
      match takeToChar sq ((c :: cs).drop unrecognizedLit.length) with
      | some (cap, rem) =>
        if cap.isEmpty then scanUnrecognizedGo fuel cs
        else cap :: scanUnrecognizedGo fuel rem
      | none => scanUnrecognizedGo fuel cs
    else scanUnrecognizedGo fuel cs

/-- All captures of `/Option ([^ ]+) not found/gi`. -/
def scanOptionNotFoundGo : Nat → List Char → List (List Char)
  | 0, _ => []
  | _ + 1, [] => []
  | fuel + 1, c :: cs =>
    if listStartsWithCI "Option ".data (c :: cs) then
      let after := (c :: cs).drop 7
      let cap := after.takeWhile (fun ch => ch ≠ ' ')
      let rem := after.drop cap.length
      if !cap.isEmpty && listStartsWithCI " not found".data rem then
        cap :: scanOptionNotFoundGo fuel (rem.drop 10)
      else scanOptionNotFoundGo fuel cs
    else scanOptionNotFoundGo fuel cs

/-- All captures of the unknown-option regex (optionally double-quoted
name, `[^"\s]+`). -/
def scanUnknownOptionGo : Nat → List Char → List (List Char)
  | 0, _ => []
  | _ + 1, [] => []
  | fuel + 1, c :: cs =>
    if listStartsWithCI "Unknown option ".data (c :: cs) then
      let after := (c :: cs).drop 15
      let afterQ := match after with
        | '"' :: t => t
        | _ => after
      let cap := afterQ.takeWhile (fun ch => ch ≠ '"' && !isJsWs ch)
      if cap.isEmpty then scanUnknownOptionGo fuel cs
      else
        let rem0 := afterQ.drop cap.length
        let rem := match rem0 with
          | '"' :: t => t
          | _ => rem0
        cap :: scanUnknownOptionGo fuel rem
    else scanUnknownOptionGo fuel cs

def dedupAppend (acc : List String) (x : String) : List String :=
  if x ∈ acc then acc else acc ++ [x]

/-- `detectUnsupportedFfmpegOptions`: run the three patterns in order,
strip leading dashes, trim, drop empties, and deduplicate preserving
first-insertion order (the `Set` iteration order). -/
def detectUnsupportedFfmpegOptions (stderr : String) : List String :=
  let cs := stderr.data
  let raws := scanUnrecognizedGo cs.length cs ++
    scanOptionNotFoundGo cs.length cs ++ scanUnknownOptionGo cs.length cs
  let opts := raws.map (fun r => (jsTrimList (r.dropWhile (· = '-'))).asString)
  opts.foldl (fun acc o => if o = "" then acc else dedupAppend acc o) []

structure FfArgOptions where
  includeHeaders : Bool
  includeProtocolWhitelist : Bool
  includeAllowedExtensions : Bool
  includeAllowedSegmentExtensions : Bool
  deriving Repr, DecidableEq

/-- One pass of the narrowing `while` body over `optionState` (route.ts
lines 1769–1800): switch off exactly the flag groups that are currently on
and named in `unsupported`; the second component is the `changed` flag. -/
def narrowOptions (u : List String) (s : FfArgOptions) : FfArgOptions × Bool :=
  let d1 := s.includeHeaders && (u.contains "headers" || u.contains "user_agent")
  let d2 := s.includeProtocolWhitelist && u.contains "protocol_whitelist"
  let d3 := s.includeAllowedExtensions && u.contains "allowed_extensions"
  let d4 := s.includeAllowedSegmentExtensions && u.contains "allowed_segment_extensions"
  (⟨s.includeHeaders && !d1, s.includeProtocolWhitelist && !d2,
    s.includeAllowedExtensions && !d3, s.includeAllowedSegmentExtensions && !d4⟩,
    d1 || d2 || d3 || d4)

def ffmpegBaseArgs : List String :=
  ["-hide_banner", "-loglevel", "error", "-progress", "pipe:1", "-nostats"]

def protocolWhitelistArgs : List String :=
  ["-protocol_whitelist", "file,http,https,tcp,tls,crypto,data"]

/-- `buildArgs` (route.ts lines 1600–1618). -/
def buildFfmpegArgs (isHls : Bool) (headerArgs inputArgs : List String)
    (o : FfArgOptions) : List String :=
  ffmpegBaseArgs ++
  (if o.includeHeaders then headerArgs else []) ++
  (if isHls && o.includeProtocolWhitelist then protocolWhitelistArgs else []) ++
  (if isHls && o.includeAllowedExtensions then ["-allowed_extensions", "ALL"] else []) ++
  (if isHls && o.includeAllowedSegmentExtensions then
    ["-allowed_segment_extensions", "ALL"] else []) ++
  inputArgs

structure FfRun where
  ok : Bool
  stderr : String
  deriving Repr, DecidableEq

/-- The narrowing loop (route.ts lines 1766–1803); `budget` is `3 - attempts`.
Returns the final run outcome and the trace of invoked option states. -/
def ffmpegNarrowLoopGo (run : FfArgOptions → FfRun) :
    Nat → FfRun → FfArgOptions → List FfArgOptions → FfRun × List FfArgOptions
  | 0, r, _, trace => (r, trace)
  | budget + 1, r, s, trace =>
    if r.ok then (r, trace)
    else if (detectUnsupportedFfmpegOptions r.stderr).isEmpty then (r, trace)
    else if !(narrowOptions (detectUnsupportedFfmpegOptions r.stderr) s).2 then
      (r, trace)
    else
      ffmpegNarrowLoopGo run budget
        (run (narrowOptions (detectUnsupportedFfmpegOptions r.stderr) s).1)
        (narrowOptions (detectUnsupportedFfmpegOptions r.stderr) s).1
        (trace ++ [(narrowOptions (detectUnsupportedFfmpegOptions r.stderr) s).1])

def runFfmpegWithNarrowing (run : FfArgOptions → FfRun) (init : FfArgOptions) :
    FfRun × List FfArgOptions :=
  ffmpegNarrowLoopGo run 3 (run init) init [init]

lemma ffmpegNarrowLoopGo_length (run : FfArgOptions → FfRun) :
    ∀ (budget : Nat) (r : FfRun) (s : FfArgOptions) (trace : List FfArgOptions),
      (ffmpegNarrowLoopGo run budget r s trace).2.length ≤ trace.length + budget := by
  intro budget
  induction budget with
  | zero => intro r s trace; simp [ffmpegNarrowLoopGo]
  | succ b ih =>
    intro r s trace
    unfold ffmpegNarrowLoopGo
    split_ifs with h1 h2 h3
    · simp
    · simp
    · simp
    · have h := ih (run (narrowOptions (detectUnsupportedFfmpegOptions r.stderr) s).1)
        (narrowOptions (detectUnsupportedFfmpegOptions r.stderr) s).1
        (trace ++ [(narrowOptions (detectUnsupportedFfmpegOptions r.stderr) s).1])
      simp only [List.length_append, List.length_cons, List.length_nil] at h
      omega

lemma ffmpegNarrowLoopGo_trace_extends (run : FfArgOptions → FfRun) :
    ∀ (budget : Nat) (r : FfRun) (s : FfArgOptions) (trace : List FfArgOptions),
      ∃ ext, (ffmpegNarrowLoopGo run budget r s trace).2 = trace ++ ext := by
  intro budget
  induction budget with
  | zero => intro r s trace; exact ⟨[], by simp [ffmpegNarrowLoopGo]⟩
  | succ b ih =>
    intro r s trace
    unfold ffmpegNarrowLoopGo
    split_ifs with h1 h2 h3
    · exact ⟨[], by simp⟩
    · exact ⟨[], by simp⟩
    · exact ⟨[], by simp⟩
    · obtain ⟨ext, hext⟩ := ih (run (narrowOptions (detectUnsupportedFfmpegOptions r.stderr) s).1)
        (narrowOptions (detectUnsupportedFfmpegOptions r.stderr) s).1
        (trace ++ [(narrowOptions (detectUnsupportedFfmpegOptions r.stderr) s).1])
      exact ⟨[(narrowOptions (detectUnsupportedFfmpegOptions r.stderr) s).1] ++ ext,
        by rw [hext]; exact (List.append_assoc _ _ _)⟩

/-- The stderr text `Unrecognized option quoted(protocol_whitelist)`. -/
def pwStderr : String :=
  "Unrecognized option " ++ (String.mk [sq]) ++ "protocol_whitelist" ++ (String.mk [sq])

lemma detect_pwStderr :
    detectUnsupportedFfmpegOptions pwStderr = ["protocol_whitelist"] := by
  decide

lemma ffmpegNarrowLoopGo_step_pw (run : FfArgOptions → FfRun) (budget : Nat)
    (r : FfRun) (s : FfArgOptions) (trace : List FfArgOptions)
    (hok : r.ok = false)
    (hu : detectUnsupportedFfmpegOptions r.stderr = ["protocol_whitelist"])
    (hch : (narrowOptions ["protocol_whitelist"] s).2 = true) :
    ffmpegNarrowLoopGo run (budget + 1) r s trace
      = ffmpegNarrowLoopGo run budget
          (run (narrowOptions ["protocol_whitelist"] s).1)
          (narrowOptions ["protocol_whitelist"] s).1
          (trace ++ [(narrowOptions ["protocol_whitelist"] s).1]) := by
  have hstep : ffmpegNarrowLoopGo run (budget + 1) r s trace
      = if r.ok then (r, trace)
        else if (detectUnsupportedFfmpegOptions r.stderr).isEmpty then (r, trace)
        else if !(narrowOptions (detectUnsupportedFfmpegOptions r.stderr) s).2 then
          (r, trace)
        else ffmpegNarrowLoopGo run budget
          (run (narrowOptions (detectUnsupportedFfmpegOptions r.stderr) s).1)
          (narrowOptions (detectUnsupportedFfmpegOptions r.stderr) s).1
          (trace ++ [(narrowOptions (detectUnsupportedFfmpegOptions r.stderr) s).1]) := rfl
  rw [hstep, hok, hu, hch]
  simp

/-- C3: the narrowing step removes exactly the flag groups that are both
currently enabled and named in the unrecognized/unknown-option stderr
output; at most 3 narrowing retries happen (at most 4 subprocess
invocations); and after a first failure with
`Unrecognized option quoted(protocol_whitelist)` the second invocation uses
the same option state minus exactly the protocol-whitelist flag group,
whose argument list differs from the first precisely by dropping
`-protocol_whitelist file,http,https,tcp,tls,crypto,data`. -/
theorem ffmpeg_narrowing_behaviour :
    (∀ (u : List String) (s : FfArgOptions),
      (narrowOptions u s).1.includeHeaders
        = (s.includeHeaders && !(u.contains "headers" || u.contains "user_agent")) ∧
      (narrowOptions u s).1.includeProtocolWhitelist
        = (s.includeProtocolWhitelist && !(u.contains "protocol_whitelist")) ∧
      (narrowOptions u s).1.includeAllowedExtensions
        = (s.includeAllowedExtensions && !(u.contains "allowed_extensions")) ∧
      (narrowOptions u s).1.includeAllowedSegmentExtensions
        = (s.includeAllowedSegmentExtensions && !(u.contains "allowed_segment_extensions"))) ∧
    (∀ (run : FfArgOptions → FfRun) (init : FfArgOptions),
      (runFfmpegWithNarrowing run init).2.length ≤ 4) ∧
    (∀ (run : FfArgOptions → FfRun),
      run ⟨true, true, true, true⟩ = ⟨false, pwStderr⟩ →
      (runFfmpegWithNarrowing run ⟨true, true, true, true⟩).2.take 2
        = [⟨true, true, true, true⟩, ⟨true, false, true, true⟩]) ∧
    (∀ headerArgs inputArgs : List String,
      buildFfmpegArgs true headerArgs inputArgs ⟨true, true, true, true⟩
        = ffmpegBaseArgs ++ headerArgs ++ protocolWhitelistArgs ++
          ["-allowed_extensions", "ALL"] ++
          ["-allowed_segment_extensions", "ALL"] ++ inputArgs ∧
      buildFfmpegArgs true headerArgs inputArgs ⟨true, false, true, true⟩
        = ffmpegBaseArgs ++ headerArgs ++
          ["-allowed_extensions", "ALL"] ++
          ["-allowed_segment_extensions", "ALL"] ++ inputArgs) := by
  refine ⟨?_, ?_, ?_, ?_⟩
  · intro u s
    refine ⟨?_, ?_, ?_, ?_⟩
    all_goals
      simp only [narrowOptions]
      cases s.includeHeaders <;> cases s.includeProtocolWhitelist <;>
        cases s.includeAllowedExtensions <;> cases s.includeAllowedSegmentExtensions <;>
        cases hh : u.contains "headers" <;> cases hua : u.contains "user_agent" <;>
        cases hpw : u.contains "protocol_whitelist" <;>
        cases hae : u.contains "allowed_extensions" <;>
        cases hase : u.contains "allowed_segment_extensions" <;> rfl
  · intro run init
    have h := ffmpegNarrowLoopGo_length run 3 (run init) init [init]
    simpa [runFfmpegWithNarrowing] using h
  · intro run hrun
    unfold runFfmpegWithNarrowing
    rw [hrun]
    rw [ffmpegNarrowLoopGo_step_pw run 2 ⟨false, pwStderr⟩ ⟨true, true, true, true⟩
      [⟨true, true, true, true⟩] rfl (by rw [show (⟨false, pwStderr⟩ : FfRun).stderr
        = pwStderr from rfl, detect_pwStderr]) (by decide)]
    obtain ⟨ext, hext⟩ := ffmpegNarrowLoopGo_trace_extends run 2
      (run (narrowOptions ["protocol_whitelist"] ⟨true, true, true, true⟩).1)
      (narrowOptions ["protocol_whitelist"] ⟨true, true, true, true⟩).1
      ([⟨true, true, true, true⟩] ++
        [(narrowOptions ["protocol_whitelist"] ⟨true, true, true, true⟩).1])
    rw [hext]
    rw [show ([(⟨true, true, true, true⟩ : FfArgOptions)] ++
        [(narrowOptions ["protocol_whitelist"] ⟨true, true, true, true⟩).1])
      = [(⟨true, true, true, true⟩ : FfArgOptions), ⟨true, false, true, true⟩] from by decide]
    rw [show (2 : Nat)
      = [(⟨true, true, true, true⟩ : FfArgOptions), ⟨true, false, true, true⟩].length from rfl]
    exact List.take_left _ _
  · intro headerArgs inputArgs
    constructor
    · rfl
    · simp [buildFfmpegArgs]

/-- Witness for C3: a concrete runner whose first call fails with the
protocol-whitelist error; the loop invokes it a second time without exactly
that flag group. -/
theorem ffmpeg_narrowing_behaviour_witness :
    (runFfmpegWithNarrowing
        (fun s => if s = ⟨true, true, true, true⟩ then ⟨false, pwStderr⟩
          else ⟨true, ""⟩)
        ⟨true, true, true, true⟩).2.take 2
      = [⟨true, true, true, true⟩, ⟨true, false, true, true⟩] := by
  exact ffmpeg_narrowing_behaviour.2.2.1
    (fun s => if s = ⟨true, true, true, true⟩ then ⟨false, pwStderr⟩ else ⟨true, ""⟩)
    (by decide)

/-! ## Playlist classification and disguised-segment repair (C1, C4)

Embeds `looksLikeM3U8`, `getSegmentExtension`, `replaceSegmentExtension`,
`rewriteSegmentExtensions`, `getFallbackExtensions`,
`collectInvalidSegmentCandidates`, `findInvalidSegmentLine`,
`hasEncryptionOrMap`, `areImageSegmentsMedia`, `tryRewriteImageSegments`,
`filterInvalidSegments`, `hasMediaSegments` (route.ts lines 117–441, 977–981)
and the image-segment handling of `runAttempt` (lines 1432–1504).
`new URL(line, base).toString()` (with its catch-fallback to the raw line)
is an oracle `resolve : String → String → String`; the outcome of
`probeSegmentContent` for a URL is an oracle `probe : String → Bool`. -/

def INVALID_SEGMENT_EXTENSIONS : List String :=
  [".jpg", ".jpeg", ".png", ".gif", ".webp", ".bmp", ".svg", ".ico"]

def DEFAULT_FALLBACK_EXTENSIONS : List String := [".ts", ".m4s", ".mp4"]

def SEGMENT_EXTENSION_FALLBACKS : List (String × List String) :=
  [(".jpg", [".ts", ".m4s", ".mp4"]), (".jpeg", [".ts", ".m4s", ".mp4"]),
   (".png", [".ts", ".m4s", ".mp4"]), (".gif", [".ts", ".m4s", ".mp4"]),
   (".webp", [".ts", ".m4s", ".mp4"])]

def MAX_SEGMENT_PROBES : Nat := 5

def hasMediaSegments (content : String) : Bool :=
  (splitLines content).any (fun l => listStartsWith "#EXTINF".data (jsTrimList l.data))

def looksLikeM3U8 (content : String) : Bool :=
  let t := jsTrimList content.data
  if t.isEmpty then false
  else if listStartsWith "#EXTM3U".data t then true
  else listContainsSubCI "#EXTINF".data t ||
    listContainsSubCI "#EXT-X-STREAM-INF".data t ||
    listContainsSubCI "#EXT-X-TARGETDURATION".data t

def hasEncryptionOrMap (content : String) : Bool :=
  listContainsSubCI "#EXT-X-KEY".data content.data ||
  listContainsSubCI "#EXT-X-MAP".data content.data

/-- Part of a char list before the first occurrence of `stop` (JS
`s.split(stop)[0]`). -/
def beforeChar (stop : Char) (cs : List Char) : List Char :=
  cs.takeWhile (· ≠ stop)

/-- The suffix of `cs` starting at its last dot (`slice(lastIndexOf dot)`),
or `none` when there is no dot. -/
def extFromLastDot (cs : List Char) : Option (List Char) :=
  let rev := cs.reverse
  let pre := rev.takeWhile (· ≠ '.')
  if pre.length = rev.length then none else some ('.' :: pre.reverse)

/-- `getSegmentExtension` (route.ts lines 145–153). -/
def getSegmentExtension (raw : String) : Option String :=
  let t := jsTrimList raw.data
  if t.isEmpty || listStartsWith "#".data t then none
  else
    let wh0 := beforeChar '#' t
    let wh := if wh0.isEmpty then t else wh0
    let wq0 := beforeChar '?' wh
    let wq := if wq0.isEmpty then wh else wq0
    match extFromLastDot wq with
    | none => none
    | some e => some (lowerList e).asString

/-- The `Math.min` of the `#`/`?` indices used by `replaceSegmentExtension`. -/
def extReplaceEndIndex (t : List Char) : Nat :=
  match firstIndexOf '#' t, firstIndexOf '?' t with
  | none, none => t.length
  | some h, none => h
  | none, some q => q
  | some h, some q => min h q

/-- `replaceSegmentExtension` (route.ts lines 155–175). -/
def replaceSegmentExtension (raw fromExt toExt : String) : String :=
  let t := jsTrimList raw.data
  if t.isEmpty then raw
  else
    let endIndex := extReplaceEndIndex t
    let base := t.take endIndex
    let suffix := t.drop endIndex
    if listEndsWith fromExt.data (lowerList base) then
      ((base.take (base.length - fromExt.length)) ++ toExt.data ++ suffix).asString
    else raw

/-- `rewriteSegmentExtensions` (route.ts lines 177–192); the mapping is the
association list `{ [primaryExt]: fallbackExt }`. -/
def rewriteSegmentExtensions (content : String) (mapping : List (String × String)) : String :=
  let rewritten := (splitLines content).map (fun line =>
    let t := jsTrimList line.data
    if t.isEmpty || listStartsWith "#".data t then line
    else
      match getSegmentExtension t.asString with
      | none => line
      | some ext =>
        match mapping.lookup ext with
        | none => line
        | some toExt => replaceSegmentExtension line ext toExt)
  String.intercalate "\n" rewritten

/-- `getFallbackExtensions` (route.ts lines 194–197). -/
def getFallbackExtensions (ext : String) : List String :=
  match SEGMENT_EXTENSION_FALLBACKS.lookup ext with
  | some l => if l.length > 0 then l else DEFAULT_FALLBACK_EXTENSIONS
  | none => DEFAULT_FALLBACK_EXTENSIONS

/-- `collectInvalidSegmentCandidates` (route.ts lines 199–224): distinct
resolved URLs of non-comment lines whose raw extension is a known image
extension, in first-occurrence order, paired with that extension. -/
def collectInvalidSegmentCandidates (resolve : String → String → String)
    (content baseUrl : String) : List (String × String) :=
  let step := fun (acc : List (String × String)) (line : String) =>
    let t := jsTrimList line.data
    if t.isEmpty || listStartsWith "#".data t then acc
    else
      match getSegmentExtension t.asString with
      | none => acc
      | some ext =>
        if !INVALID_SEGMENT_EXTENSIONS.contains ext then acc
        else
          let resolved := resolve baseUrl t.asString
          if (acc.map (·.2)).contains resolved then acc
          else acc ++ [(ext, resolved)]
  (splitLines content).foldl step []

/-- `resolved.split(qmark)[0].split(hash)[0].toLowerCase()`. -/
def normalizeForExtCheck (resolved : String) : String :=
  (lowerList (beforeChar '#' (beforeChar '?' resolved.data))).asString

/-- `findInvalidSegmentLine` (route.ts lines 278–300). -/
def findInvalidSegmentLine (resolve : String → String → String)
    (content baseUrl : String) : Option String :=
  if !hasMediaSegments content then none
  else
    let step := fun (acc : Option String) (line : String) =>
      match acc with
      | some r => some r
      | none =>
        let t := jsTrimList line.data
        if t.isEmpty || listStartsWith "#".data t then none
        else
          let normalized := normalizeForExtCheck (resolve baseUrl t.asString)
          if normalized = "" then none
          else if INVALID_SEGMENT_EXTENSIONS.any
              (fun ext => strEndsWith normalized ext) then
            some t.asString
          else none
    (splitLines content).foldl step none

/-- `areImageSegmentsMedia` (route.ts lines 306–319): probe at most
`MAX_SEGMENT_PROBES` distinct candidates; `false` as soon as one probe
fails or when there is no candidate. -/
def areImageSegmentsMedia (probe : String → Bool) (resolve : String → String → String)
    (content baseUrl : String) : Bool :=
  let candidates := collectInvalidSegmentCandidates resolve content baseUrl
  if candidates.isEmpty then false
  else (candidates.take MAX_SEGMENT_PROBES).all (fun c => probe c.2)

/-- The fallback-extension loop of `tryRewriteImageSegments`
(route.ts lines 337–367). -/
def tryRewriteLoop (probe : String → Bool) (resolve : String → String → String)
    (content baseUrl : String) (primaryExt : String)
    (sample : List (String × String)) : List String → Option String
  | [] => none
  | fb :: rest =>
    let allOk := !sample.isEmpty && sample.all (fun c =>
      replaceSegmentExtension c.2 primaryExt fb ≠ c.2 &&
      probe (replaceSegmentExtension c.2 primaryExt fb))
    if allOk then
      let rw := rewriteSegmentExtensions content [(primaryExt, fb)]
      if hasMediaSegments rw && (findInvalidSegmentLine resolve rw baseUrl).isNone then
        some rw
      else tryRewriteLoop probe resolve content baseUrl primaryExt sample rest
    else tryRewriteLoop probe resolve content baseUrl primaryExt sample rest

/-- `tryRewriteImageSegments` (route.ts lines 321–370). -/
def tryRewriteImageSegments (probe : String → Bool) (resolve : String → String → String)
    (content baseUrl : String) : Option String :=
  let candidates := collectInvalidSegmentCandidates resolve content baseUrl
  match candidates with
  | [] => none
  | first :: _ =>
    let primaryExt := first.1
    let sample := (candidates.filter (fun c => c.1 = primaryExt)).take MAX_SEGMENT_PROBES
    if sample.isEmpty then none
    else tryRewriteLoop probe resolve content baseUrl primaryExt sample
      (getFallbackExtensions primaryExt)

/-- `filterInvalidSegments` (route.ts lines 372–432): drop invalid segment
lines together with their pending `#EXTINF`/`#EXT-X-BYTERANGE` tags;
returns the filtered content and the number of removed segment lines. -/
def filterInvalidSegments (resolve : String → String → String)
    (content baseUrl : String) : String × Nat :=
  if !hasMediaSegments content then (content, 0)
  else
    let step := fun (st : List String × List String × Nat) (line : String) =>
      let (filtered, pending, removed) := st
      let t := jsTrimList line.data
      if t.isEmpty then
        if pending.isEmpty then (filtered ++ [line], pending, removed)
        else (filtered, pending, removed)
      else if listStartsWith "#EXTINF".data t ||
          listStartsWith "#EXT-X-BYTERANGE".data t then
        (filtered, pending ++ [line], removed)
      else if listStartsWith "#".data t then
        (filtered ++ pending ++ [line], [], removed)
      else
        let normalized := normalizeForExtCheck (resolve baseUrl t.asString)
        let isInvalid := normalized ≠ "" &&
          INVALID_SEGMENT_EXTENSIONS.any (fun ext => strEndsWith normalized ext)
        if isInvalid then (filtered, [], removed + 1)
        else (filtered ++ pending ++ [line], [], removed)
    let r := (splitLines content).foldl step ([], [], 0)
    (String.intercalate "\n" r.1, r.2.2)

/-- The image-segment handling of `runAttempt` (route.ts lines 1432–1504):
given the fetched playlist, returns either an error (message as thrown) or
the content to sanitize together with the
`(allowImageSegments, allowEncryptedImageSegments)` flags. -/
def sanitizePlaylistDecision (probe : String → Bool) (resolve : String → String → String)
    (content url : String) : Except String (String × Bool × Bool) :=
  if !looksLikeM3U8 content then
    Except.error "Playlist content is not a valid M3U8"
  else
    let hasInvalid := !(collectInvalidSegmentCandidates resolve content url).isEmpty
    let hasEnc := hasEncryptionOrMap content
    let step : String × Bool × Bool :=
      if hasInvalid then
        if hasEnc then (content, true, true)
        else if areImageSegmentsMedia probe resolve content url then
          (content, true, false)
        else
          match tryRewriteImageSegments probe resolve content url with
          | some rw => (rw, (findInvalidSegmentLine resolve rw url).isSome, false)
          | none => (content, true, false)
      else (content, false, false)
    let invalidSeg :=
      if step.2.1 then none else findInvalidSegmentLine resolve step.1 url
    match invalidSeg with
    | some seg =>
      let filtered := filterInvalidSegments resolve step.1 url
      if filtered.2 > 0 && hasMediaSegments filtered.1 then
        Except.ok (filtered.1, step.2.1, step.2.2)
      else Except.error ("Playlist contains non-media segment: " ++ seg)
    | none => Except.ok step

/-- C1 (corrected): when a playlist has non-media-extension segment lines,
no encryption or init-map tags, byte-probing every sampled candidate fails
and no fallback-extension substitution fully probes positive, the resolver
does **not** remove the invalid lines — it marks the playlist as permitting
image segments and leaves the manifest unmodified, returning it without an
error (rejection is deferred to fetch-time content-type enforcement).
Removal with paired `#EXTINF` tags, and the non-media-segment error on
emptiness, occur only in the residual branch where an invalid line is
detected while image segments are not allowed. -/
theorem sanitizeDecision_permissive_fallback (probe : String → Bool)
    (resolve : String → String → String) (content url : String)
    (h1 : looksLikeM3U8 content = true)
    (h2 : collectInvalidSegmentCandidates resolve content url ≠ [])
    (h3 : hasEncryptionOrMap content = false)
    (h4 : areImageSegmentsMedia probe resolve content url = false)
    (h5 : tryRewriteImageSegments probe resolve content url = none) :
    sanitizePlaylistDecision probe resolve content url
      = Except.ok (content, true, false) := by
  unfold sanitizePlaylistDecision
  rw [h1]
  have hinv : (!(collectInvalidSegmentCandidates resolve content url).isEmpty) = true := by
    simpa [List.isEmpty_iff] using h2
  rw [hinv]
  simp only [if_true, h3, h4, h5, Bool.false_eq_true, if_false, Bool.not_false,
    Bool.not_true, if_true]

/-- Witness for C1: the concrete single-image-segment playlist with an
always-failing probe is returned unmodified with the permissive flag. -/
theorem sanitizeDecision_permissive_fallback_witness :
    sanitizePlaylistDecision (fun _ => false) (fun _ l => l)
        "#EXTM3U\n#EXTINF:10,\nhttp://example.com/seg1.jpg\n#EXT-X-ENDLIST"
        "http://example.com/play.m3u8"
      = Except.ok ("#EXTM3U\n#EXTINF:10,\nhttp://example.com/seg1.jpg\n#EXT-X-ENDLIST",
          true, false) := by
  exact sanitizeDecision_permissive_fallback (fun _ => false) (fun _ l => l)
    "#EXTM3U\n#EXTINF:10,\nhttp://example.com/seg1.jpg\n#EXT-X-ENDLIST"
    "http://example.com/play.m3u8"
    (by decide) (by decide) (by decide) (by decide) (by decide)

/-- Counterexample to C1 as stated: for this playlist (one `.jpg` segment,
no key/map tags) with every probe failing and no substitution succeeding,
the claim demands that the invalid line and its `#EXTINF` tag be removed
(which would empty the playlist and raise the no-playable-media error);
instead the decision succeeds with the manifest unchanged — the invalid
line is still present afterwards. -/
theorem sanitizeDecision_no_removal_counterexample :
    sanitizePlaylistDecision (fun _ => false) (fun _ l => l)
        "#EXTM3U\n#EXTINF:10,\nhttp://example.com/seg1.jpg\n#EXT-X-ENDLIST"
        "http://example.com/play.m3u8"
      = Except.ok ("#EXTM3U\n#EXTINF:10,\nhttp://example.com/seg1.jpg\n#EXT-X-ENDLIST",
          true, false) ∧
    findInvalidSegmentLine (fun _ l => l)
        "#EXTM3U\n#EXTINF:10,\nhttp://example.com/seg1.jpg\n#EXT-X-ENDLIST"
        "http://example.com/play.m3u8"
      = some "http://example.com/seg1.jpg" := by
  refine ⟨by rfl, by decide⟩

/-! ## Master playlist resolution (C4)

Embeds `isLikelyPlayableMediaPlaylist` (route.ts lines 434–441),
`parseVariantStreams` (lines 1005–1044) and `resolveMediaPlaylist`
(lines 1058–1099).  `fetchPlaylist` (assumed to succeed) is an oracle
`fetch : String → PlaylistResult`.  The JS stable sort with comparator
`(a, b) => b.bandwidth - a.bandwidth` is a stable descending insertion
sort. -/

structure PlaylistResult where
  content : String
  url : String
  deriving Repr, DecidableEq

structure VariantStream where
  url : String
  bandwidth : Nat
  deriving Repr, DecidableEq

def isLikelyPlayableMediaPlaylist (resolve : String → String → String)
    (content baseUrl : String) : Bool :=
  looksLikeM3U8 content && hasMediaSegments content &&
    (findInvalidSegmentLine resolve content baseUrl).isNone

/-- First match of `/BANDWIDTH=(\d+)/` scanning left to right. -/
def parseBandwidthGo : Nat → List Char → Option Nat
  | 0, _ => none
  | _ + 1, [] => none
  | fuel + 1, c :: cs =>
    if listStartsWith "BANDWIDTH=".data (c :: cs) then
      let digits := ((c :: cs).drop 10).takeWhile Char.isDigit
      if digits.isEmpty then parseBandwidthGo fuel cs
      else some (natOfDigits digits)
    else parseBandwidthGo fuel cs

/-- The inner lookahead of `parseVariantStreams`: the next non-empty line,
unless it is a tag line. -/
def findNextUri : List String → Option String
  | [] => none
  | l :: rest =>
    let t := jsTrimList l.data
    if t.isEmpty then findNextUri rest
    else if listStartsWith "#".data t then none
    else some t.asString

def parseVariantStreams (resolve : String → String → String) (baseUrl : String) :
    List String → List VariantStream
  | [] => []
  | l :: rest =>
    let t := jsTrimList l.data
    let vs := parseVariantStreams resolve baseUrl rest
    if listStartsWith "#EXT-X-STREAM-INF:".data t then
      let bw := (parseBandwidthGo t.length t).getD 0
      match findNextUri rest with
      | some u => ⟨resolve baseUrl u, bw⟩ :: vs
      | none => vs
    else vs

def insertVariantDesc (v : VariantStream) : List VariantStream → List VariantStream
  | [] => [v]
  | w :: ws =>
    if v.bandwidth ≤ w.bandwidth then w :: insertVariantDesc v ws
    else v :: w :: ws

/-- Stable descending sort by bandwidth (`variants.sort((a, b) => b.bandwidth - a.bandwidth)`). -/
def sortVariantsDesc (l : List VariantStream) : List VariantStream :=
  l.foldr insertVariantDesc []

/-- `Set.has` on the visited-URL set. -/
def listHas (l : List String) (x : String) : Bool :=
  l.any (fun y => y = x)

/-- The variant-scanning `for` loop of `resolveMediaPlaylist`
(lines 1079–1090): returns the playable winner (if any) and the first
fetched candidate as fallback. -/
def scanVariants (fetch : String → PlaylistResult) (resolve : String → String → String)
    (visited : List String) :
    List VariantStream → Option PlaylistResult →
      Option PlaylistResult × Option PlaylistResult
  | [], fallback => (none, fallback)
  | v :: rest, fallback =>
    if v.url = "" || listHas visited v.url then
      scanVariants fetch resolve visited rest fallback
    else
      let candidate := fetch v.url
      let fallback2 := some (fallback.getD candidate)
      if isLikelyPlayableMediaPlaylist resolve candidate.content candidate.url then
        (some candidate, fallback2)
      else scanVariants fetch resolve visited rest fallback2

/-- The depth-bounded loop of `resolveMediaPlaylist` (lines 1066–1098). -/
def resolveLoop (fetch : String → PlaylistResult) (resolve : String → String → String) :
    Nat → List String → PlaylistResult → PlaylistResult
  | 0, _, current => current
  | depth + 1, visited, current =>
    if listHas visited current.url then current
    else
      let visited2 := current.url :: visited
      let variants := sortVariantsDesc
        (parseVariantStreams resolve current.url (splitLines current.content))
      if variants.isEmpty then current
      else
        match scanVariants fetch resolve visited2 variants none with
        | (some winner, _) => winner
        | (none, some fb) => resolveLoop fetch resolve depth visited2 fb
        | (none, none) => current

def resolveMediaPlaylist (fetch : String → PlaylistResult)
    (resolve : String → String → String) (initialUrl : String) : PlaylistResult :=
  resolveLoop fetch resolve 3 [] (fetch initialUrl)

lemma insertVariantDesc_perm (v : VariantStream) (l : List VariantStream) :
    (insertVariantDesc v l).Perm (v :: l) := by
  induction l with
  | nil => rfl
  | cons w ws ih =>
    unfold insertVariantDesc
    split_ifs with h
    · exact ((ih.cons w).trans (List.Perm.swap v w ws))
    · rfl

lemma sortVariantsDesc_perm (l : List VariantStream) :
    (sortVariantsDesc l).Perm l := by
  induction l with
  | nil => rfl
  | cons x xs ih =>
    have : sortVariantsDesc (x :: xs) = insertVariantDesc x (sortVariantsDesc xs) := rfl
    rw [this]
    exact (insertVariantDesc_perm x (sortVariantsDesc xs)).trans (ih.cons x)

lemma insertVariantDesc_mem (v x : VariantStream) (l : List VariantStream)
    (hx : x ∈ insertVariantDesc v l) : x = v ∨ x ∈ l := by
  have := (insertVariantDesc_perm v l).mem_iff.mp hx
  simpa using this

lemma insertVariantDesc_sorted (v : VariantStream) (l : List VariantStream)
    (h : l.Pairwise (fun a b => b.bandwidth ≤ a.bandwidth)) :
    (insertVariantDesc v l).Pairwise (fun a b => b.bandwidth ≤ a.bandwidth) := by
  induction l with
  | nil => simp [insertVariantDesc]
  | cons w ws ih =>
    rcases List.pairwise_cons.mp h with ⟨hw, hws⟩
    unfold insertVariantDesc
    split_ifs with hvw
    · refine List.pairwise_cons.mpr ⟨?_, ih hws⟩
      intro x hx
      rcases insertVariantDesc_mem v x ws hx with hxv | hxw
      · rw [hxv]; exact hvw
      · exact hw x hxw
    · refine List.pairwise_cons.mpr ⟨?_, h⟩
      intro x hx
      rcases List.mem_cons.mp hx with hxw | hxws
      · rw [hxw]; omega
      · exact le_trans (hw x hxws) (by omega)

lemma sortVariantsDesc_sorted (l : List VariantStream) :
    (sortVariantsDesc l).Pairwise (fun a b => b.bandwidth ≤ a.bandwidth) := by
  induction l with
  | nil => simp [sortVariantsDesc]
  | cons x xs ih => exact insertVariantDesc_sorted x (sortVariantsDesc xs) ih

lemma scanVariants_cons (fetch : String → PlaylistResult)
    (resolve : String → String → String) (visited : List String)
    (v : VariantStream) (rest : List VariantStream) (fb : Option PlaylistResult) :
    scanVariants fetch resolve visited (v :: rest) fb
      = if v.url = "" || listHas visited v.url then
          scanVariants fetch resolve visited rest fb
        else
          if isLikelyPlayableMediaPlaylist resolve (fetch v.url).content (fetch v.url).url
          then (some (fetch v.url), some (fb.getD (fetch v.url)))
          else scanVariants fetch resolve visited rest (some (fb.getD (fetch v.url))) := rfl

lemma listHas_singleton_ne (a b : String) (h : b ≠ a) :
    listHas (a :: []) b = false := by
  simp [listHas]
  exact fun hc => h hc.symm

lemma scanVariants_finds_first (fetch : String → PlaylistResult)
    (resolve : String → String → String) (visited : List String) :
    ∀ (pre : List VariantStream) (v : VariantStream) (post : List VariantStream)
      (fb : Option PlaylistResult),
      (∀ w ∈ pre, w.url ≠ "" ∧ listHas visited w.url = false ∧
        isLikelyPlayableMediaPlaylist resolve (fetch w.url).content (fetch w.url).url
          = false) →
      v.url ≠ "" → listHas visited v.url = false →
      isLikelyPlayableMediaPlaylist resolve (fetch v.url).content (fetch v.url).url
        = true →
      (scanVariants fetch resolve visited (pre ++ v :: post) fb).1
        = some (fetch v.url) := by
  intro pre
  induction pre with
  | nil =>
    intro v post fb _ hv hvv hplay
    rw [List.nil_append, scanVariants_cons]
    rw [if_neg (by rw [hvv]; simp [hv])]
    rw [if_pos (by rw [hplay])]
  | cons w ws ih =>
    intro v post fb hpre hv hvv hplay
    have hw := hpre w (List.mem_cons_self w ws)
    rw [List.cons_append, scanVariants_cons]
    rw [if_neg (by rw [hw.2.1]; simp [hw.1])]
    rw [if_neg (by rw [hw.2.2]; simp)]
    exact ih v post _ (fun x hx => hpre x (List.mem_cons_of_mem w hx)) hv hvv hplay

lemma scanVariants_all_fail_some (fetch : String → PlaylistResult)
    (resolve : String → String → String) (visited : List String) :
    ∀ (l : List VariantStream) (fb : PlaylistResult),
      (∀ w ∈ l,
        isLikelyPlayableMediaPlaylist resolve (fetch w.url).content (fetch w.url).url
          = false) →
      scanVariants fetch resolve visited l (some fb) = (none, some fb) := by
  intro l
  induction l with
  | nil => intro fb _; rfl
  | cons w ws ih =>
    intro fb hall
    have hw := hall w (List.mem_cons_self w ws)
    rw [scanVariants_cons]
    split_ifs with h1 h2
    · exact ih fb (fun x hx => hall x (List.mem_cons_of_mem w hx))
    · rw [hw] at h2
      exact absurd h2 (by simp)
    · rw [show (some fb).getD (fetch w.url) = fb from rfl]
      exact ih fb (fun x hx => hall x (List.mem_cons_of_mem w hx))

lemma scanVariants_all_fail_none (fetch : String → PlaylistResult)
    (resolve : String → String → String) (visited : List String)
    (v0 : VariantStream) (rest : List VariantStream)
    (h0 : v0.url ≠ "") (h0v : listHas visited v0.url = false)
    (hall : ∀ w ∈ v0 :: rest,
      isLikelyPlayableMediaPlaylist resolve (fetch w.url).content (fetch w.url).url
        = false) :
    scanVariants fetch resolve visited (v0 :: rest) none
      = (none, some (fetch v0.url)) := by
  rw [scanVariants_cons]
  rw [if_neg (by rw [h0v]; simp [h0])]
  rw [if_neg (by rw [hall v0 (List.mem_cons_self v0 rest)]; simp)]
  rw [show (none : Option PlaylistResult).getD (fetch v0.url) = fetch v0.url from rfl]
  exact scanVariants_all_fail_some fetch resolve visited rest (fetch v0.url)
    (fun x hx => hall x (List.mem_cons_of_mem v0 hx))

lemma resolveLoop_step (fetch : String → PlaylistResult)
    (resolve : String → String → String) (d : Nat) (visited : List String)
    (current : PlaylistResult) :
    resolveLoop fetch resolve (d + 1) visited current
      = if listHas visited current.url then current
        else
          if (sortVariantsDesc
            (parseVariantStreams resolve current.url (splitLines current.content))).isEmpty
          then current
          else
            match scanVariants fetch resolve (current.url :: visited)
              (sortVariantsDesc
                (parseVariantStreams resolve current.url (splitLines current.content)))
              none with
            | (some winner, _) => winner
            | (none, some fb) =>
              resolveLoop fetch resolve d (current.url :: visited) fb
            | (none, none) => current := rfl

lemma resolveLoop_no_variants (fetch : String → PlaylistResult)
    (resolve : String → String → String) (fb : PlaylistResult)
    (h : parseVariantStreams resolve fb.url (splitLines fb.content) = []) :
    ∀ (d : Nat) (visited : List String), resolveLoop fetch resolve d visited fb = fb := by
  intro d visited
  cases d with
  | zero => rfl
  | succ d2 =>
    rw [resolveLoop_step, h]
    split_ifs with h1 h2
    · rfl
    · rfl
    · exact absurd (by rfl : (sortVariantsDesc ([] : List VariantStream)).isEmpty = true) h2

/-- C4: variants of a master playlist are processed in stable descending
bandwidth order; the resolver returns the first fetched variant classified
likely-playable; when all variants fail the classification it falls back to
the first fetched candidate (returned as soon as that candidate is itself a
media playlist); recursion depth is capped at 3 and already-visited URLs are
skipped both at loop entry and per variant. -/
theorem resolveMediaPlaylist_behaviour :
    (∀ l : List VariantStream,
      (sortVariantsDesc l).Pairwise (fun a b => b.bandwidth ≤ a.bandwidth) ∧
      (sortVariantsDesc l).Perm l) ∧
    (∀ fetch resolve visited current,
      resolveLoop fetch resolve 0 visited current = current) ∧
    (∀ fetch resolve d visited current, listHas visited current.url = true →
      resolveLoop fetch resolve (d + 1) visited current = current) ∧
    (∀ fetch resolve visited v rest fb, (v.url = "" || listHas visited v.url) = true →
      scanVariants fetch resolve visited (v :: rest) fb
        = scanVariants fetch resolve visited rest fb) ∧
    (∀ (fetch : String → PlaylistResult) (resolve : String → String → String)
        (u0 : String) (pre : List VariantStream) (v : VariantStream)
        (post : List VariantStream),
      sortVariantsDesc (parseVariantStreams resolve (fetch u0).url
          (splitLines (fetch u0).content)) = pre ++ v :: post →
      (∀ w ∈ pre ++ v :: post, w.url ≠ "" ∧ w.url ≠ (fetch u0).url) →
      (∀ w ∈ pre,
        isLikelyPlayableMediaPlaylist resolve (fetch w.url).content (fetch w.url).url
          = false) →
      isLikelyPlayableMediaPlaylist resolve (fetch v.url).content (fetch v.url).url
        = true →
      resolveMediaPlaylist fetch resolve u0 = fetch v.url) ∧
    (∀ (fetch : String → PlaylistResult) (resolve : String → String → String)
        (u0 : String) (v0 : VariantStream) (rest : List VariantStream),
      sortVariantsDesc (parseVariantStreams resolve (fetch u0).url
          (splitLines (fetch u0).content)) = v0 :: rest →
      (∀ w ∈ v0 :: rest, w.url ≠ "" ∧ w.url ≠ (fetch u0).url) →
      (∀ w ∈ v0 :: rest,
        isLikelyPlayableMediaPlaylist resolve (fetch w.url).content (fetch w.url).url
          = false) →
      parseVariantStreams resolve (fetch v0.url).url
        (splitLines (fetch v0.url).content) = [] →
      resolveMediaPlaylist fetch resolve u0 = fetch v0.url) := by
  refine ⟨?_, ?_, ?_, ?_, ?_, ?_⟩
  · intro l
    exact ⟨sortVariantsDesc_sorted l, sortVariantsDesc_perm l⟩
  · intro fetch resolve visited current
    rfl
  · intro fetch resolve d visited current h
    rw [resolveLoop_step, if_pos h]
  · intro fetch resolve visited v rest fb h
    rw [scanVariants_cons, if_pos h]
  · intro fetch resolve u0 pre v post hvs hurls hpre hplay
    unfold resolveMediaPlaylist
    rw [resolveLoop_step, if_neg (by simp [listHas]), hvs]
    rw [if_neg (by simp)]
    have hurlmem : ∀ w ∈ pre ++ v :: post,
        listHas ((fetch u0).url :: []) w.url = false := by
      intro w hw
      exact listHas_singleton_ne (fetch u0).url w.url (hurls w hw).2
    have hscan := scanVariants_finds_first fetch resolve ((fetch u0).url :: [])
      pre v post none
      (fun w hw => ⟨(hurls w (List.mem_append_left _ hw)).1,
        hurlmem w (List.mem_append_left _ hw),
        hpre w hw⟩)
      (hurls v (List.mem_append_right _ (List.mem_cons_self v post))).1
      (hurlmem v (List.mem_append_right _ (List.mem_cons_self v post)))
      hplay
    rw [show scanVariants fetch resolve ((fetch u0).url :: []) (pre ++ v :: post) none
      = (some (fetch v.url),
        (scanVariants fetch resolve ((fetch u0).url :: []) (pre ++ v :: post) none).2)
      from Prod.ext hscan rfl]
  · intro fetch resolve u0 v0 rest hvs hurls hfail hfbvars
    unfold resolveMediaPlaylist
    rw [resolveLoop_step, if_neg (by simp [listHas]), hvs]
    rw [if_neg (by simp)]
    have hurlmem : ∀ w ∈ v0 :: rest,
        listHas ((fetch u0).url :: []) w.url = false := by
      intro w hw
      exact listHas_singleton_ne (fetch u0).url w.url (hurls w hw).2
    rw [scanVariants_all_fail_none fetch resolve ((fetch u0).url :: []) v0 rest
      (hurls v0 (List.mem_cons_self v0 rest)).1
      (hurlmem v0 (List.mem_cons_self v0 rest)) hfail]
    exact resolveLoop_no_variants fetch resolve (fetch v0.url) hfbvars 2 _

/-- Witness for C4: a concrete master playlist with a 2 Mbps variant whose
media playlist has an image-extension segment (not likely-playable) and a
0.5 Mbps playable variant; the resolver fetches in descending-bandwidth
order and returns the playable lower variant. -/
theorem resolveMediaPlaylist_behaviour_witness :
    resolveMediaPlaylist
        (fun u => if u = "low.m3u8" then
            ⟨"#EXTM3U\n#EXTINF:5,\nseg.ts\n#EXT-X-ENDLIST", "low.m3u8"⟩
          else if u = "high.m3u8" then
            ⟨"#EXTM3U\n#EXTINF:5,\nseg.jpg", "high.m3u8"⟩
          else
            ⟨"#EXTM3U\n#EXT-X-STREAM-INF:BANDWIDTH=500000\nlow.m3u8\n#EXT-X-STREAM-INF:BANDWIDTH=2000000\nhigh.m3u8",
              "master.m3u8"⟩)
        (fun _ l => l) "master.m3u8"
      = ⟨"#EXTM3U\n#EXTINF:5,\nseg.ts\n#EXT-X-ENDLIST", "low.m3u8"⟩ := by
  exact resolveMediaPlaylist_behaviour.2.2.2.2.1
    (fun u => if u = "low.m3u8" then
        ⟨"#EXTM3U\n#EXTINF:5,\nseg.ts\n#EXT-X-ENDLIST", "low.m3u8"⟩
      else if u = "high.m3u8" then
        ⟨"#EXTM3U\n#EXTINF:5,\nseg.jpg", "high.m3u8"⟩
      else
        ⟨"#EXTM3U\n#EXT-X-STREAM-INF:BANDWIDTH=500000\nlow.m3u8\n#EXT-X-STREAM-INF:BANDWIDTH=2000000\nhigh.m3u8",
          "master.m3u8"⟩)
    (fun _ l => l) "master.m3u8"
    [⟨"high.m3u8", 2000000⟩] ⟨"low.m3u8", 500000⟩ []
    (by decide) (by decide) (by decide) (by decide)

/-! ## Header/URL directive parser (C9)

Embeds `sanitizeHeaderValue` (route.ts lines 62–64) and
`parseUrlWithHeaders` (lines 66–115).  `decodeURIComponent` is implemented
as a strict percent-decoder (UTF-8 with the usual overlong/surrogate/range
rejections); a decoding failure keeps the raw value, as the route's
`try/catch` does.  The JS header record with its five possible keys is the
structure `ForwardHeaders`. -/

/-- `value.replace(/[\r\n]+/g, ' ')`: collapse each run of CR/LF into one
space. -/
def collapseCRLFGo (prevCRLF : Bool) : List Char → List Char
  | [] => []
  | c :: cs =>
    if c = '\r' || c = '\n' then
      if prevCRLF then collapseCRLFGo true cs
      else ' ' :: collapseCRLFGo true cs
    else c :: collapseCRLFGo false cs

def sanitizeHeaderValue (s : String) : String :=
  (jsTrimList (collapseCRLFGo false s.data)).asString

def hexDigitVal (c : Char) : Option Nat :=
  if '0' ≤ c ∧ c ≤ '9' then some (c.toNat - 48)
  else if 'a' ≤ c ∧ c ≤ 'f' then some (c.toNat - 87)
  else if 'A' ≤ c ∧ c ≤ 'F' then some (c.toNat - 55)
  else none

/-- Parse a leading `%XX` escape, returning the byte and the remainder. -/
def parsePct : List Char → Option (Nat × List Char)
  | '%' :: h1 :: h2 :: rest =>
    match hexDigitVal h1, hexDigitVal h2 with
    | some a, some b => some (a * 16 + b, rest)
    | _, _ => none
  | _ => none

/-- Strict UTF-8 percent-decoding (`decodeURIComponent`); `none` models the
`URIError` throw. -/
def decodeGo : Nat → List Char → Option (List Char)
  | 0, [] => some []
  | 0, _ :: _ => none
  | _ + 1, [] => some []
  | fuel + 1, c :: cs =>
    if c ≠ '%' then (decodeGo fuel cs).map (c :: ·)
    else
      match parsePct (c :: cs) with
      | none => none
      | some (b1, r1) =>
        if b1 < 128 then (decodeGo fuel r1).map (Char.ofNat b1 :: ·)
        else if b1 < 194 then none
        else if b1 ≤ 223 then
          match parsePct r1 with
          | some (b2, r2) =>
            if 128 ≤ b2 ∧ b2 ≤ 191 then
              (decodeGo fuel r2).map (Char.ofNat ((b1 - 192) * 64 + (b2 - 128)) :: ·)
            else none
          | none => none
        else if b1 ≤ 239 then
          match parsePct r1 with
          | some (b2, r2) =>
            if (if b1 = 224 then 160 else 128) ≤ b2 ∧
                b2 ≤ (if b1 = 237 then 159 else 191) then
              match parsePct r2 with
              | some (b3, r3) =>
                if 128 ≤ b3 ∧ b3 ≤ 191 then
                  (decodeGo fuel r3).map
                    (Char.ofNat ((b1 - 224) * 4096 + (b2 - 128) * 64 + (b3 - 128)) :: ·)
                else none
              | none => none
            else none
          | none => none
        else if b1 ≤ 244 then
          match parsePct r1 with
          | some (b2, r2) =>
            if (if b1 = 240 then 144 else 128) ≤ b2 ∧
                b2 ≤ (if b1 = 244 then 143 else 191) then
              match parsePct r2 with
              | some (b3, r3) =>
                if 128 ≤ b3 ∧ b3 ≤ 191 then
                  match parsePct r3 with
                  | some (b4, r4) =>
                    if 128 ≤ b4 ∧ b4 ≤ 191 then
                      (decodeGo fuel r4).map
                        (Char.ofNat ((b1 - 240) * 262144 + (b2 - 128) * 4096 +
                          (b3 - 128) * 64 + (b4 - 128)) :: ·)
                    else none
                  | none => none
                else none
              | none => none
            else none
          | none => none
        else none

def decodeURIComponentOpt (s : String) : Option String :=
  (decodeGo s.data.length s.data).map List.asString

structure ForwardHeaders where
  referer : Option String
  userAgent : Option String
  origin : Option String
  cookie : Option String
  authorization : Option String
  deriving Repr, DecidableEq

def emptyForwardHeaders : ForwardHeaders := ⟨none, none, none, none, none⟩

/-- `rest.join(eq-sign)` on char lists. -/
def joinWithChar (sep : Char) : List (List Char) → List Char
  | [] => []
  | [x] => x
  | x :: y :: rest => x ++ sep :: joinWithChar sep (y :: rest)

/-- The per-pair body of the `for` loop in `parseUrlWithHeaders`
(route.ts lines 84–112); `continue` is the identity. -/
def applyHeaderPair (h : ForwardHeaders) (pair : String) : ForwardHeaders :=
  let tp := jsTrimList pair.data
  if tp.isEmpty then h
  else
    match splitOnChar '=' tp with
    | [] => h
    | rawKey :: rest =>
      if rawKey.isEmpty || rest.isEmpty then h
      else
        let key := (lowerList (jsTrimList rawKey)).asString
        let rawValue := (jsTrimList (joinWithChar '=' rest)).asString
        if rawValue = "" then h
        else
          let value := sanitizeHeaderValue ((decodeURIComponentOpt rawValue).getD rawValue)
          if value = "" then h
          else if key = "referer" || key = "referrer" then
            ⟨some value, h.userAgent, h.origin, h.cookie, h.authorization⟩
          else if key = "user-agent" || key = "useragent" || key = "ua" then
            ⟨h.referer, some value, h.origin, h.cookie, h.authorization⟩
          else if key = "origin" then
            ⟨h.referer, h.userAgent, some value, h.cookie, h.authorization⟩
          else if key = "cookie" then
            ⟨h.referer, h.userAgent, h.origin, some value, h.authorization⟩
          else if key = "authorization" then
            ⟨h.referer, h.userAgent, h.origin, h.cookie, some value⟩
          else h

structure ParsedUrlHeaders where
  url : String
  headers : ForwardHeaders
  deriving Repr, DecidableEq

/-- `parseUrlWithHeaders` (route.ts lines 66–115). -/
def parseUrlWithHeaders (raw : String) : ParsedUrlHeaders :=
  let trimmed := jsTrimList raw.data
  match firstIndexOf '|' trimmed with
  | none => ⟨trimmed.asString, emptyForwardHeaders⟩
  | some pipeIndex =>
    let url := (jsTrimList (trimmed.take pipeIndex)).asString
    let headerPart := jsTrimList (trimmed.drop (pipeIndex + 1))
    if headerPart.isEmpty then ⟨url, emptyForwardHeaders⟩
    else
      let pairs := (splitOnChar '&' headerPart).map List.asString
      ⟨url, pairs.foldl applyHeaderPair emptyForwardHeaders⟩

lemma dropWhile_noSat (p : Char → Bool) (l : List Char)
    (h : ∀ c ∈ l, p c = false) : l.dropWhile p = l := by
  cases l with
  | nil => rfl
  | cons c cs =>
    rw [List.dropWhile_cons, h c (List.mem_cons_self c cs)]
    simp

lemma jsTrimList_noWs (l : List Char) (h : ∀ c ∈ l, isJsWs c = false) :
    jsTrimList l = l := by
  unfold jsTrimList
  rw [dropWhile_noSat _ _ h]
  rw [dropWhile_noSat _ _ (fun c hc => h c (List.mem_reverse.mp hc))]
  exact List.reverse_reverse l

lemma jsTrimList_mem (x : Char) (l : List Char) (hx : x ∈ jsTrimList l) : x ∈ l := by
  unfold jsTrimList at hx
  rw [List.mem_reverse] at hx
  have h2 := (List.dropWhile_sublist _).subset hx
  rw [List.mem_reverse] at h2
  exact (List.dropWhile_sublist _).subset h2

lemma collapseCRLFGo_no_crlf (l : List Char) :
    ∀ (prev : Bool), ∀ x ∈ collapseCRLFGo prev l, x ≠ '\r' ∧ x ≠ '\n' := by
  induction l with
  | nil => intro prev x hx; exact absurd hx (List.not_mem_nil x)
  | cons c cs ih =>
    intro prev x hx
    unfold collapseCRLFGo at hx
    by_cases hc : (c = '\r' || c = '\n') = true
    · rw [if_pos hc] at hx
      by_cases hp : prev
      · rw [if_pos hp] at hx
        exact ih true x hx
      · rw [if_neg hp] at hx
        rcases List.mem_cons.mp hx with hsp | hrest
        · rw [hsp]
          exact ⟨by decide, by decide⟩
        · exact ih true x hrest
    · rw [if_neg hc] at hx
      rcases List.mem_cons.mp hx with hxc | hrest
      · rw [hxc]
        simp only [Bool.or_eq_true, decide_eq_true_eq, not_or] at hc
        exact hc
      · exact ih false x hrest

lemma sanitizeHeaderValue_no_crlf (s : String) :
    ∀ x ∈ (sanitizeHeaderValue s).data, x ≠ '\r' ∧ x ≠ '\n' := by
  intro x hx
  unfold sanitizeHeaderValue at hx
  rw [show ((jsTrimList (collapseCRLFGo false s.data)).asString).data
    = jsTrimList (collapseCRLFGo false s.data) from rfl] at hx
  exact collapseCRLFGo_no_crlf s.data false x (jsTrimList_mem x _ hx)

/-- No CR/LF character in a possibly-absent header value. -/
def optNoCRLF (o : Option String) : Prop :=
  ∀ v, o = some v → ∀ x ∈ v.data, x ≠ '\r' ∧ x ≠ '\n'

def allNoCRLF (h : ForwardHeaders) : Prop :=
  optNoCRLF h.referer ∧ optNoCRLF h.userAgent ∧ optNoCRLF h.origin ∧
  optNoCRLF h.cookie ∧ optNoCRLF h.authorization

lemma optNoCRLF_none : optNoCRLF none := by
  intro v hv
  exact absurd hv (by simp)

lemma optNoCRLF_some_sanitized (s : String) :
    optNoCRLF (some (sanitizeHeaderValue s)) := by
  intro v hv x hx
  injection hv with hv2
  rw [← hv2] at hx
  exact sanitizeHeaderValue_no_crlf s x hx

lemma allNoCRLF_empty : allNoCRLF emptyForwardHeaders :=
  ⟨optNoCRLF_none, optNoCRLF_none, optNoCRLF_none, optNoCRLF_none, optNoCRLF_none⟩

lemma applyHeaderPair_noCRLF (h : ForwardHeaders) (pair : String)
    (H : allNoCRLF h) : allNoCRLF (applyHeaderPair h pair) := by
  unfold applyHeaderPair
  dsimp only
  split
  · exact H
  · split
    · exact H
    · split_ifs with h1 h2 h3 h4 h5 h6 h7 h8
      · exact H
      · exact H
      · exact H
      · exact ⟨optNoCRLF_some_sanitized _, H.2.1, H.2.2.1, H.2.2.2.1, H.2.2.2.2⟩
      · exact ⟨H.1, optNoCRLF_some_sanitized _, H.2.2.1, H.2.2.2.1, H.2.2.2.2⟩
      · exact ⟨H.1, H.2.1, optNoCRLF_some_sanitized _, H.2.2.2.1, H.2.2.2.2⟩
      · exact ⟨H.1, H.2.1, H.2.2.1, optNoCRLF_some_sanitized _, H.2.2.2.2⟩
      · exact ⟨H.1, H.2.1, H.2.2.1, H.2.2.2.1, optNoCRLF_some_sanitized _⟩
      · exact H

lemma foldl_applyHeaderPair_noCRLF (pairs : List String) :
    ∀ (h : ForwardHeaders), allNoCRLF h →
      allNoCRLF (pairs.foldl applyHeaderPair h) := by
  induction pairs with
  | nil => intro h H; exact H
  | cons p ps ih =>
    intro h H
    exact ih (applyHeaderPair h p) (applyHeaderPair_noCRLF h p H)

lemma firstIndexOf_take_eq_takeWhile (c : Char) (l : List Char) :
    ∀ (i : Nat), firstIndexOf c l = some i →
      l.take i = l.takeWhile (fun x => x ≠ c) := by
  induction l with
  | nil => intro i hi; exact absurd hi (by simp [firstIndexOf])
  | cons x xs ih =>
    intro i hi
    unfold firstIndexOf at hi
    by_cases hx : x = c
    · rw [if_pos hx] at hi
      injection hi with hi2
      rw [← hi2]
      rw [List.take_zero, List.takeWhile_cons]
      rw [show (decide (x ≠ c)) = false by simp [hx]]
      rw [if_neg (by simp)]
    · rw [if_neg hx] at hi
      rcases Option.map_eq_some'.mp hi with ⟨j, hj, hij⟩
      rw [← hij]
      rw [List.take_succ_cons, List.takeWhile_cons]
      rw [show (decide (x ≠ c)) = true by simp [hx]]
      rw [if_pos rfl]
      rw [ih j hj]

lemma splitOnChar_cons (sep c : Char) (cs : List Char) :
    splitOnChar sep (c :: cs)
      = if c = sep then [] :: splitOnChar sep cs
        else match splitOnChar sep cs with
          | [] => [[c]]
          | piece :: more => (c :: piece) :: more := rfl

lemma splitOnChar_not_mem (sep : Char) (l : List Char) (h : sep ∉ l) :
    splitOnChar sep l = [l] := by
  induction l with
  | nil => rfl
  | cons c cs ih =>
    have hc : ¬(c = sep) := fun he => h (he ▸ List.mem_cons_self c cs)
    rw [splitOnChar_cons, if_neg hc, ih (fun hm => h (List.mem_cons_of_mem c hm))]

lemma splitOnChar_append (sep : Char) (a b : List Char) (ha : sep ∉ a) :
    splitOnChar sep (a ++ sep :: b) = a :: splitOnChar sep b := by
  induction a with
  | nil =>
    rw [List.nil_append]
    rw [splitOnChar_cons, if_pos rfl]
  | cons c a2 ih =>
    have hc : ¬(c = sep) := fun he => ha (he ▸ List.mem_cons_self c a2)
    rw [List.cons_append]
    rw [splitOnChar_cons, if_neg hc, ih (fun hm => ha (List.mem_cons_of_mem c hm))]

lemma strData_append (s t : String) : (s ++ t).data = s.data ++ t.data := by
  cases s
  cases t
  rfl

lemma parseUrlWithHeaders_eq (raw : String) :
    parseUrlWithHeaders raw
      = match firstIndexOf '|' (jsTrimList raw.data) with
        | none => ⟨(jsTrimList raw.data).asString, emptyForwardHeaders⟩
        | some pipeIndex =>
          if (jsTrimList ((jsTrimList raw.data).drop (pipeIndex + 1))).isEmpty then
            ⟨(jsTrimList ((jsTrimList raw.data).take pipeIndex)).asString,
              emptyForwardHeaders⟩
          else
            ⟨(jsTrimList ((jsTrimList raw.data).take pipeIndex)).asString,
              ((splitOnChar '&'
                  (jsTrimList ((jsTrimList raw.data).drop (pipeIndex + 1)))).map
                List.asString).foldl applyHeaderPair emptyForwardHeaders⟩ := rfl

/-- C9 core: applying one `key=value` pair behaves as the case-insensitive
header table on `jsLower key` with the percent-decoded, CR/LF-sanitized
value (for pairs in the canonical shape: no extra equals signs, no
whitespace). -/
theorem applyHeaderPair_table (h : ForwardHeaders) (key val : String)
    (hkeyEq : '=' ∉ key.data) (hvalEq : '=' ∉ val.data)
    (hkeyWs : ∀ c ∈ key.data, isJsWs c = false)
    (hvalWs : ∀ c ∈ val.data, isJsWs c = false)
    (hkeyNe : key.data ≠ []) (hvalNe : val.data ≠ [])
    (hvalue : sanitizeHeaderValue ((decodeURIComponentOpt val).getD val) ≠ "") :
    applyHeaderPair h (key ++ "=" ++ val)
      = (if jsLower key = "referer" || jsLower key = "referrer" then
          ⟨some (sanitizeHeaderValue ((decodeURIComponentOpt val).getD val)),
            h.userAgent, h.origin, h.cookie, h.authorization⟩
        else if jsLower key = "user-agent" || jsLower key = "useragent" ||
            jsLower key = "ua" then
          ⟨h.referer, some (sanitizeHeaderValue ((decodeURIComponentOpt val).getD val)),
            h.origin, h.cookie, h.authorization⟩
        else if jsLower key = "origin" then
          ⟨h.referer, h.userAgent,
            some (sanitizeHeaderValue ((decodeURIComponentOpt val).getD val)),
            h.cookie, h.authorization⟩
        else if jsLower key = "cookie" then
          ⟨h.referer, h.userAgent, h.origin,
            some (sanitizeHeaderValue ((decodeURIComponentOpt val).getD val)),
            h.authorization⟩
        else if jsLower key = "authorization" then
          ⟨h.referer, h.userAgent, h.origin, h.cookie,
            some (sanitizeHeaderValue ((decodeURIComponentOpt val).getD val))⟩
        else h) := by
  have hdata : (key ++ "=" ++ val).data = key.data ++ '=' :: val.data := by
    rw [strData_append, strData_append]
    simp
  have hallWs : ∀ c ∈ key.data ++ '=' :: val.data, isJsWs c = false := by
    intro c hc
    rcases List.mem_append.mp hc with hk | hv
    · exact hkeyWs c hk
    · rcases List.mem_cons.mp hv with he | hvv
      · rw [he]; rfl
      · exact hvalWs c hvv
  have h1 : jsTrimList (key.data ++ '=' :: val.data) = key.data ++ '=' :: val.data :=
    jsTrimList_noWs _ hallWs
  have h2 : splitOnChar '=' (key.data ++ '=' :: val.data) = [key.data, val.data] := by
    rw [splitOnChar_append _ _ _ hkeyEq, splitOnChar_not_mem _ _ hvalEq]
  have h3 : jsTrimList key.data = key.data := jsTrimList_noWs _ hkeyWs
  have h4 : jsTrimList val.data = val.data := jsTrimList_noWs _ hvalWs
  have h5 : (val.data).asString = val := by cases val; rfl
  have hvalStr : val ≠ "" := by
    intro he
    rw [he] at hvalNe
    exact hvalNe rfl
  unfold applyHeaderPair
  rw [hdata, h1]
  rw [if_neg (by cases key.data <;> simp_all)]
  rw [h2]
  dsimp only
  rw [if_neg (by
    simp only [List.isEmpty_iff, Bool.or_eq_true]
    push_neg
    exact ⟨hkeyNe, by simp⟩)]
  rw [h3]
  rw [show joinWithChar '=' [val.data] = val.data from rfl, h4, h5]
  rw [if_neg hvalStr, if_neg hvalue]
  rfl

/-- C9: the parser splits at the first pipe of the trimmed input, returning
the trimmed part before it as the bare URL (the whole trimmed input when no
pipe is present); every stored header value is free of CR/LF; and a pair
whose lower-cased key is not in the recognized set leaves the header record
unchanged. -/
theorem parseUrlWithHeaders_spec :
    (∀ raw : String, firstIndexOf '|' (jsTrimList raw.data) = none →
      parseUrlWithHeaders raw = ⟨(jsTrimList raw.data).asString, emptyForwardHeaders⟩) ∧
    (∀ (raw : String) (i : Nat), firstIndexOf '|' (jsTrimList raw.data) = some i →
      (parseUrlWithHeaders raw).url
        = (jsTrimList ((jsTrimList raw.data).takeWhile (fun c => c ≠ '|'))).asString) ∧
    (∀ raw : String, allNoCRLF (parseUrlWithHeaders raw).headers) ∧
    (∀ (h : ForwardHeaders) (key val : String),
      '=' ∉ key.data → '=' ∉ val.data →
      (∀ c ∈ key.data, isJsWs c = false) → (∀ c ∈ val.data, isJsWs c = false) →
      key.data ≠ [] → val.data ≠ [] →
      sanitizeHeaderValue ((decodeURIComponentOpt val).getD val) ≠ "" →
      jsLower key ∉ ["referer", "referrer", "user-agent", "useragent", "ua",
        "origin", "cookie", "authorization"] →
      applyHeaderPair h (key ++ "=" ++ val) = h) := by
  refine ⟨?_, ?_, ?_, ?_⟩
  · intro raw hnone
    rw [parseUrlWithHeaders_eq, hnone]
  · intro raw i hsome
    rw [parseUrlWithHeaders_eq, hsome]
    dsimp only
    rw [← firstIndexOf_take_eq_takeWhile '|' (jsTrimList raw.data) i hsome]
    split_ifs with h1
    · rfl
    · rfl
  · intro raw
    rw [parseUrlWithHeaders_eq]
    split
    · exact allNoCRLF_empty
    · split_ifs with h1
      · exact allNoCRLF_empty
      · exact foldl_applyHeaderPair_noCRLF _ _ allNoCRLF_empty
  · intro h key val hkeyEq hvalEq hkeyWs hvalWs hkeyNe hvalNe hvalue hunrec
    rw [applyHeaderPair_table h key val hkeyEq hvalEq hkeyWs hvalWs hkeyNe hvalNe hvalue]
    simp only [List.mem_cons, List.not_mem_nil, or_false, not_or] at hunrec
    obtain ⟨n1, n2, n3, n4, n5, n6, n7, n8⟩ := hunrec
    rw [if_neg (by simp [n1, n2]), if_neg (by simp [n3, n4, n5]),
      if_neg (by simp [n6]), if_neg (by simp [n7]), if_neg (by simp [n8])]

/-- Witness for C9: a concrete input with a referer directive and an
unrecognized key. -/
theorem parseUrlWithHeaders_spec_witness :
    parseUrlWithHeaders "  https://example.com/v.m3u8  "
      = ⟨"https://example.com/v.m3u8", emptyForwardHeaders⟩ ∧
    (parseUrlWithHeaders "https://example.com/v.m3u8|Referer=https%3A%2F%2Fexample.com&junk=1").url
      = "https://example.com/v.m3u8" ∧
    applyHeaderPair emptyForwardHeaders "Bogus-Key=abc" = emptyForwardHeaders := by
  refine ⟨?_, ?_, ?_⟩
  · exact (parseUrlWithHeaders_spec.1 "  https://example.com/v.m3u8  " (by decide)).trans
      (by decide)
  · exact (parseUrlWithHeaders_spec.2.1
      "https://example.com/v.m3u8|Referer=https%3A%2F%2Fexample.com&junk=1" 26
      (by decide)).trans (by decide)
  · exact (parseUrlWithHeaders_spec.2.2.2 emptyForwardHeaders "Bogus-Key" "abc"
      (by decide) (by decide) (by decide) (by decide) (by decide) (by decide)
      (by decide) (by decide)).trans rfl

/-! ## Parallel segment downloader: scan, plan and manifest rewrite (C5, C10)

Embeds `parseAttributeList` (route.ts lines 572–592), `replaceUriAttribute`
(lines 594–602), `getSafeSegmentExtension` (lines 604–613), the
line-classification and precondition part of `downloadHlsSegmentsParallel`
(lines 697–797) and its manifest rewrite (lines 902–926).  `new URL(u).pathname`
is an oracle `pathnameOf` (`none` = constructor throw); URL resolution is
the oracle `resolve` as before. -/

def DEFAULT_SEGMENT_MIN_COUNT : Nat := 6

def upperList (cs : List Char) : List Char :=
  cs.map Char.toUpper

/-- Decimal digits of `n` (most significant first). -/
def natToCharsGo : Nat → Nat → List Char
  | 0, _ => []
  | _ + 1, 0 => []
  | fuel + 1, n => natToCharsGo fuel (n / 10) ++ [Char.ofNat (48 + n % 10)]

def natToChars (n : Nat) : List Char :=
  if n = 0 then ['0'] else natToCharsGo (n + 1) n

/-- `String(n).padStart(5, zero-digit)`. -/
def padZeros5 (n : Nat) : String :=
  let s := natToChars n
  (List.replicate (5 - s.length) '0' ++ s).asString

/-- Split an attribute list at commas that are outside quoted values
(the lookahead regex: a comma splits iff the number of quotes after it is
even). -/
def splitAttrCommasGo (total : Nat) : Nat → List Char → List (List Char)
  | _, [] => [[]]
  | seen, c :: rest =>
    if c = ',' ∧ (total - seen) % 2 = 0 then
      [] :: splitAttrCommasGo total seen rest
    else
      let seen2 := if c = '"' then seen + 1 else seen
      match splitAttrCommasGo total seen2 rest with
      | [] => [[c]]
      | piece :: more => (c :: piece) :: more

def splitAttrCommas (cs : List Char) : List (List Char) :=
  splitAttrCommasGo (cs.countP (· = '"')) 0 cs

/-- `parseAttributeList`: key upper-cased and trimmed, value trimmed and
unquoted; later assignments win, modelled by prepending and first-match
lookup. -/
def parseAttributeList (line : String) : List (String × String) :=
  match firstIndexOf ':' line.data with
  | none => []
  | some idx =>
    let list := jsTrimList (line.data.drop (idx + 1))
    if list.isEmpty then []
    else
      (splitAttrCommas list).foldl (fun attrs part =>
        let t := jsTrimList part
        if t.isEmpty then attrs
        else
          match splitOnChar '=' t with
          | [] => attrs
          | rawKey :: rest =>
            if rawKey.isEmpty || rest.isEmpty then attrs
            else
              let key := (upperList (jsTrimList rawKey)).asString
              let v0 := jsTrimList (joinWithChar '=' rest)
              let v := if listStartsWith ['"'] v0 && listEndsWith ['"'] v0 then
                  (v0.drop 1).dropLast
                else v0
              (key, v.asString) :: attrs) []

def getAttr (attrs : List (String × String)) (k : String) : Option String :=
  attrs.lookup k

/-- `path.posix.extname` on a URL pathname (suffix from the last dot of the
basename; empty when the basename has no dot or only a leading dot). -/
def posixExtname (pathname : String) : String :=
  let base := (pathname.data.reverse.takeWhile (fun c => c ≠ '/')).reverse
  let revBase := base.reverse
  let afterDot := revBase.takeWhile (fun c => c ≠ '.')
  if afterDot.length = revBase.length then ""
  else if base.length - 1 - afterDot.length = 0 then ""
  else ('.' :: afterDot.reverse).asString

/-- `getSafeSegmentExtension` (route.ts lines 604–613). -/
def getSafeSegmentExtension (pathnameOf : String → Option String)
    (resolvedUrl : String) : String :=
  match pathnameOf resolvedUrl with
  | none => ".ts"
  | some pn =>
    let ext := jsLower (posixExtname pn)
    if ext = "" || INVALID_SEGMENT_EXTENSIONS.contains ext then ".ts" else ext

structure HlsScanState where
  segments : List (Nat × String × String)
  keys : List (Nat × String × String)
  maps : List (Nat × String × String)
  keyMap : List (String × String)
  mapMap : List (String × String)
  hasByterange : Bool
  hasPartTag : Bool
  deriving Repr, DecidableEq

def initHlsScanState : HlsScanState := ⟨[], [], [], [], [], false, false⟩

/-- One iteration of the classification loop of
`downloadHlsSegmentsParallel` (route.ts lines 708–794); `none` is the early
`return null` on a non-identity `KEYFORMAT`.  `path.posix.join` on the
slash-free components used here is plain concatenation with a slash. -/
def hlsScanLine (pathnameOf : String → Option String)
    (resolve : String → String → String) (baseUrl : String)
    (st : HlsScanState) (idx : Nat) (line : String) : Option HlsScanState :=
  let t := jsTrimList line.data
  if t.isEmpty then some st
  else if listStartsWith "#EXT-X-BYTERANGE".data t then
    some ⟨st.segments, st.keys, st.maps, st.keyMap, st.mapMap, true, st.hasPartTag⟩
  else if listStartsWith "#EXT-X-PART".data t ||
      listStartsWith "#EXT-X-PRELOAD-HINT".data t then
    some ⟨st.segments, st.keys, st.maps, st.keyMap, st.mapMap, st.hasByterange, true⟩
  else if listStartsWith "#EXT-X-KEY".data t then
    let attrs := parseAttributeList t.asString
    let method := (upperList ((getAttr attrs "METHOD").getD "").data).asString
    let keyformat := match getAttr attrs "KEYFORMAT" with
      | some kf => if kf = "" then "" else jsLower kf
      | none => ""
    if keyformat ≠ "" ∧ keyformat ≠ "identity" then none
    else
      match getAttr attrs "URI" with
      | some uri =>
        if method ≠ "" ∧ method ≠ "NONE" ∧ uri ≠ "" then
          let resolved := resolve baseUrl uri
          let keyMap2 :=
            if (st.keyMap.map (fun e => e.1)).contains resolved then st.keyMap
            else st.keyMap ++
              [(resolved, "key_" ++ (natToChars (st.keyMap.length + 1)).asString ++ ".key")]
          match keyMap2.lookup resolved with
          | some localName =>
            some ⟨st.segments, st.keys ++ [(idx, resolved, "keys/" ++ localName)],
              st.maps, keyMap2, st.mapMap, st.hasByterange, st.hasPartTag⟩
          | none =>
            some ⟨st.segments, st.keys, st.maps, keyMap2, st.mapMap,
              st.hasByterange, st.hasPartTag⟩
        else some st
      | none => some st
  else if listStartsWith "#EXT-X-MAP".data t then
    let attrs := parseAttributeList t.asString
    match getAttr attrs "URI" with
    | some uri =>
      if uri ≠ "" then
        let resolved := resolve baseUrl uri
        let mapMap2 :=
          if (st.mapMap.map (fun e => e.1)).contains resolved then st.mapMap
          else st.mapMap ++
            [(resolved, "init_" ++ (natToChars (st.mapMap.length + 1)).asString ++
              getSafeSegmentExtension pathnameOf resolved)]
        match mapMap2.lookup resolved with
        | some localName =>
          some ⟨st.segments, st.keys,
            st.maps ++ [(idx, resolved, "maps/" ++ localName)], st.keyMap, mapMap2,
            st.hasByterange, st.hasPartTag⟩
        | none =>
          some ⟨st.segments, st.keys, st.maps, st.keyMap, mapMap2,
            st.hasByterange, st.hasPartTag⟩
      else some st
    | none => some st
  else if listStartsWith "#".data t then some st
  else
    let resolved := resolve baseUrl t.asString
    let ext := getSafeSegmentExtension pathnameOf resolved
    let name := "seg_" ++ padZeros5 (st.segments.length + 1) ++ ext
    some ⟨st.segments ++ [(idx, resolved, "segments/" ++ name)], st.keys, st.maps,
      st.keyMap, st.mapMap, st.hasByterange, st.hasPartTag⟩

/-- Enumerated lines (`lines` with their indices `i`). -/
def enumFrom : Nat → List String → List (Nat × String)
  | _, [] => []
  | i, l :: rest => (i, l) :: enumFrom (i + 1) rest

def hlsScanGo (pathnameOf : String → Option String)
    (resolve : String → String → String) (baseUrl : String) :
    List (Nat × String) → HlsScanState → Option HlsScanState
  | [], st => some st
  | p :: rest, st =>
    match hlsScanLine pathnameOf resolve baseUrl st p.1 p.2 with
    | none => none
    | some st2 => hlsScanGo pathnameOf resolve baseUrl rest st2

/-- The pure decision core of `downloadHlsSegmentsParallel`: `none` exactly
when the function declines (returns `null`) before doing any network work. -/
def downloadPlan (pathnameOf : String → Option String)
    (resolve : String → String → String) (content baseUrl : String) :
    Option HlsScanState :=
  if !(isVodPlaylist content && hasMediaSegments content) then none
  else
    match hlsScanGo pathnameOf resolve baseUrl
        (enumFrom 0 (splitLines content)) initHlsScanState with
    | none => none
    | some st =>
      if st.hasByterange || st.hasPartTag then none
      else if st.segments.length < DEFAULT_SEGMENT_MIN_COUNT then none
      else some st

/-- Replace a CI `URI="..."` attribute (first occurrence). -/
def replaceUriQuotedGo (newUri : String) : Nat → List Char → Option (List Char)
  | 0, _ => none
  | _ + 1, [] => none
  | fuel + 1, c :: cs =>
    if listStartsWithCI "URI=\"".data (c :: cs) then
      match takeToChar '"' ((c :: cs).drop 5) with
      | some (_, rem) => some ("URI=\"".data ++ newUri.data ++ '"' :: rem)
      | none => none
    else
      match replaceUriQuotedGo newUri fuel cs with
      | some res => some (c :: res)
      | none => none

/-- Replace a CI `URI=` attribute up to the next comma (first occurrence). -/
def replaceUriBareGo (newUri : String) : Nat → List Char → Option (List Char)
  | 0, _ => none
  | _ + 1, [] => none
  | fuel + 1, c :: cs =>
    if listStartsWithCI "URI=".data (c :: cs) then
      let span := ((c :: cs).drop 4).takeWhile (fun ch => ch ≠ ',')
      if span.isEmpty then
        match replaceUriBareGo newUri fuel cs with
        | some res => some (c :: res)
        | none => none
      else
        some ("URI=\"".data ++ newUri.data ++ '"' :: ((c :: cs).drop 4).drop span.length)
    else
      match replaceUriBareGo newUri fuel cs with
      | some res => some (c :: res)
      | none => none

/-- `replaceUriAttribute` (route.ts lines 594–602). -/
def replaceUriAttribute (line newUri : String) : String :=
  match replaceUriQuotedGo newUri line.data.length line.data with
  | some res => res.asString
  | none =>
    match replaceUriBareGo newUri line.data.length line.data with
    | some res => res.asString
    | none => line

/-- `keyLines`/`mapLines`/`segmentLines` maps: last write per line index
wins. -/
def lineAssign (entries : List (Nat × String × String)) (i : Nat) : Option String :=
  (entries.reverse.find? (fun e => e.1 = i)).map (fun e => e.2.2)

/-- The rewrite of the manifest to local paths (route.ts lines 915–926). -/
def rewriteLine (st : HlsScanState) (i : Nat) (line : String) : String :=
  match lineAssign st.keys i with
  | some lp => replaceUriAttribute line lp
  | none =>
    match lineAssign st.maps i with
    | some lp => replaceUriAttribute line lp
    | none =>
      match lineAssign st.segments i with
      | some lp => lp
      | none => line

def rewriteLocalManifest (lines : List String) (st : HlsScanState) : List String :=
  (enumFrom 0 lines).map (fun p => rewriteLine st p.1 p.2)

def isByterangeLine (l : String) : Bool :=
  listStartsWith "#EXT-X-BYTERANGE".data (jsTrimList l.data)

def isLowLatencyTagLine (l : String) : Bool :=
  listStartsWith "#EXT-X-PART".data (jsTrimList l.data) ||
  listStartsWith "#EXT-X-PRELOAD-HINT".data (jsTrimList l.data)

def keyLineKeyformat (l : String) : String :=
  let t := jsTrimList l.data
  match getAttr (parseAttributeList t.asString) "KEYFORMAT" with
  | some kf => if kf = "" then "" else jsLower kf
  | none => ""

def isNonIdentityKeyLine (l : String) : Bool :=
  listStartsWith "#EXT-X-KEY".data (jsTrimList l.data) &&
  (keyLineKeyformat l ≠ "" && keyLineKeyformat l ≠ "identity")

lemma listStartsWith_cons_ne_nil (p : Char) (ps t : List Char)
    (h : listStartsWith (p :: ps) t = true) : t.isEmpty = false := by
  cases t with
  | nil => exact absurd h (by simp [listStartsWith])
  | cons c cs => rfl

lemma startsWith_common (p q : List Char) :
    ∀ t : List Char, listStartsWith p t = true → listStartsWith q t = true →
      listStartsWith p q = true ∨ listStartsWith q p = true := by
  induction p generalizing q with
  | nil => intro t _ _; exact Or.inl rfl
  | cons p0 ps ih =>
    intro t hp hq
    cases t with
    | nil => exact absurd hp (by simp [listStartsWith])
    | cons c cs =>
      cases q with
      | nil => exact Or.inr rfl
      | cons q0 qs =>
        simp only [listStartsWith, Bool.and_eq_true, decide_eq_true_eq] at hp hq
        rcases ih qs cs hp.2 hq.2 with h1 | h2
        · exact Or.inl (by
            simp only [listStartsWith, Bool.and_eq_true, decide_eq_true_eq]
            exact ⟨hp.1.trans hq.1.symm, h1⟩)
        · exact Or.inr (by
            simp only [listStartsWith, Bool.and_eq_true, decide_eq_true_eq]
            exact ⟨hq.1.trans hp.1.symm, h2⟩)

lemma key_not_byterange (t : List Char)
    (h : listStartsWith "#EXT-X-KEY".data t = true) :
    listStartsWith "#EXT-X-BYTERANGE".data t = false := by
  by_contra hb
  rw [Bool.not_eq_false] at hb
  rcases startsWith_common "#EXT-X-KEY".data "#EXT-X-BYTERANGE".data t h hb with h1 | h2
  · exact absurd h1 (by decide)
  · exact absurd h2 (by decide)

lemma key_not_part (t : List Char)
    (h : listStartsWith "#EXT-X-KEY".data t = true) :
    (listStartsWith "#EXT-X-PART".data t ||
      listStartsWith "#EXT-X-PRELOAD-HINT".data t) = false := by
  have h1 : listStartsWith "#EXT-X-PART".data t = false := by
    by_contra hb
    rw [Bool.not_eq_false] at hb
    rcases startsWith_common "#EXT-X-KEY".data "#EXT-X-PART".data t h hb with hc | hc
    · exact absurd hc (by decide)
    · exact absurd hc (by decide)
  have h2 : listStartsWith "#EXT-X-PRELOAD-HINT".data t = false := by
    by_contra hb
    rw [Bool.not_eq_false] at hb
    rcases startsWith_common "#EXT-X-KEY".data "#EXT-X-PRELOAD-HINT".data t h hb
      with hc | hc
    · exact absurd hc (by decide)
    · exact absurd hc (by decide)
  rw [h1, h2]
  rfl

lemma hlsScanLine_byterange_mono (pathnameOf : String → Option String)
    (resolve : String → String → String) (baseUrl : String)
    (st st2 : HlsScanState) (idx : Nat) (l : String)
    (hsome : hlsScanLine pathnameOf resolve baseUrl st idx l = some st2)
    (htrue : st.hasByterange = true) : st2.hasByterange = true := by
  unfold hlsScanLine at hsome
  dsimp only at hsome
  repeat' split at hsome
  all_goals first
  | (injection hsome with h2; rw [← h2]; exact htrue)
  | (injection hsome with h2; rw [← h2])
  | exact absurd hsome (by simp)

lemma hlsScanLine_part_mono (pathnameOf : String → Option String)
    (resolve : String → String → String) (baseUrl : String)
    (st st2 : HlsScanState) (idx : Nat) (l : String)
    (hsome : hlsScanLine pathnameOf resolve baseUrl st idx l = some st2)
    (htrue : st.hasPartTag = true) : st2.hasPartTag = true := by
  unfold hlsScanLine at hsome
  dsimp only at hsome
  repeat' split at hsome
  all_goals first
  | (injection hsome with h2; rw [← h2]; exact htrue)
  | (injection hsome with h2; rw [← h2])
  | exact absurd hsome (by simp)

lemma hlsScanGo_byterange_mono (pathnameOf : String → Option String)
    (resolve : String → String → String) (baseUrl : String) :
    ∀ (ps : List (Nat × String)) (st st2 : HlsScanState),
      st.hasByterange = true →
      hlsScanGo pathnameOf resolve baseUrl ps st = some st2 →
      st2.hasByterange = true := by
  intro ps
  induction ps with
  | nil =>
    intro st st2 htrue hsome
    injection hsome with h2
    rw [← h2]; exact htrue
  | cons p rest ih =>
    intro st st2 htrue hsome
    unfold hlsScanGo at hsome
    split at hsome
    · exact absurd hsome (by simp)
    · rename_i st3 hst3
      exact ih st3 st2
        (hlsScanLine_byterange_mono pathnameOf resolve baseUrl st st3 p.1 p.2 hst3 htrue)
        hsome

lemma hlsScanGo_part_mono (pathnameOf : String → Option String)
    (resolve : String → String → String) (baseUrl : String) :
    ∀ (ps : List (Nat × String)) (st st2 : HlsScanState),
      st.hasPartTag = true →
      hlsScanGo pathnameOf resolve baseUrl ps st = some st2 →
      st2.hasPartTag = true := by
  intro ps
  induction ps with
  | nil =>
    intro st st2 htrue hsome
    injection hsome with h2
    rw [← h2]; exact htrue
  | cons p rest ih =>
    intro st st2 htrue hsome
    unfold hlsScanGo at hsome
    split at hsome
    · exact absurd hsome (by simp)
    · rename_i st3 hst3
      exact ih st3 st2
        (hlsScanLine_part_mono pathnameOf resolve baseUrl st st3 p.1 p.2 hst3 htrue)
        hsome

lemma hlsScanLine_byterange_hit (pathnameOf : String → Option String)
    (resolve : String → String → String) (baseUrl : String)
    (st : HlsScanState) (idx : Nat) (l : String)
    (hl : isByterangeLine l = true) :
    hlsScanLine pathnameOf resolve baseUrl st idx l
      = some ⟨st.segments, st.keys, st.maps, st.keyMap, st.mapMap, true,
          st.hasPartTag⟩ := by
  unfold isByterangeLine at hl
  unfold hlsScanLine
  rw [if_neg (by
    rw [listStartsWith_cons_ne_nil '#' _ _ hl]
    simp)]
  rw [if_pos hl]

lemma hlsScanLine_part_hit (pathnameOf : String → Option String)
    (resolve : String → String → String) (baseUrl : String)
    (st : HlsScanState) (idx : Nat) (l : String)
    (hl : isLowLatencyTagLine l = true)
    (hnb : isByterangeLine l = false) :
    hlsScanLine pathnameOf resolve baseUrl st idx l
      = some ⟨st.segments, st.keys, st.maps, st.keyMap, st.mapMap,
          st.hasByterange, true⟩ := by
  unfold isLowLatencyTagLine at hl
  unfold isByterangeLine at hnb
  have hne : (jsTrimList l.data).isEmpty = false := by
    rcases Bool.or_eq_true_iff.mp hl with h1 | h1
    · exact listStartsWith_cons_ne_nil '#' _ _ h1
    · exact listStartsWith_cons_ne_nil '#' _ _ h1
  unfold hlsScanLine
  rw [if_neg (by rw [hne]; simp)]
  rw [hnb]
  rw [if_neg (by simp)]
  rw [if_pos hl]

lemma hlsScanLine_badkey_none (pathnameOf : String → Option String)
    (resolve : String → String → String) (baseUrl : String)
    (st : HlsScanState) (idx : Nat) (l : String)
    (hl : isNonIdentityKeyLine l = true) :
    hlsScanLine pathnameOf resolve baseUrl st idx l = none := by
  unfold isNonIdentityKeyLine at hl
  simp only [Bool.and_eq_true, decide_eq_true_eq] at hl
  obtain ⟨hkeytag, hkf1, hkf2⟩ := hl
  unfold hlsScanLine
  rw [if_neg (by rw [listStartsWith_cons_ne_nil '#' _ _ hkeytag]; simp)]
  rw [key_not_byterange _ hkeytag]
  rw [if_neg (by simp)]
  rw [key_not_part _ hkeytag]
  rw [if_neg (by simp)]
  rw [if_pos hkeytag]
  rw [if_pos ⟨hkf1, hkf2⟩]

lemma hlsScanGo_badkey (pathnameOf : String → Option String)
    (resolve : String → String → String) (baseUrl : String) :
    ∀ (ps : List (Nat × String)) (st : HlsScanState),
      (∃ p ∈ ps, isNonIdentityKeyLine p.2 = true) →
      hlsScanGo pathnameOf resolve baseUrl ps st = none := by
  intro ps
  induction ps with
  | nil =>
    intro st hbad
    obtain ⟨p, hp, _⟩ := hbad
    exact absurd hp (List.not_mem_nil p)
  | cons q rest ih =>
    intro st hbad
    obtain ⟨p, hp, hbadp⟩ := hbad
    rcases List.mem_cons.mp hp with hq | hrest
    · unfold hlsScanGo
      rw [hq] at hbadp
      rw [hlsScanLine_badkey_none pathnameOf resolve baseUrl st q.1 q.2 hbadp]
    · unfold hlsScanGo
      split
      · rfl
      · exact ih _ ⟨p, hrest, hbadp⟩

lemma hlsScanGo_byterange (pathnameOf : String → Option String)
    (resolve : String → String → String) (baseUrl : String) :
    ∀ (ps : List (Nat × String)) (st st2 : HlsScanState),
      (∃ p ∈ ps, isByterangeLine p.2 = true) →
      hlsScanGo pathnameOf resolve baseUrl ps st = some st2 →
      st2.hasByterange = true := by
  intro ps
  induction ps with
  | nil =>
    intro st st2 hbad _
    obtain ⟨p, hp, _⟩ := hbad
    exact absurd hp (List.not_mem_nil p)
  | cons q rest ih =>
    intro st st2 hbad hsome
    obtain ⟨p, hp, hbadp⟩ := hbad
    rcases List.mem_cons.mp hp with hq | hrest
    · unfold hlsScanGo at hsome
      rw [← hq] at hsome
      rw [hlsScanLine_byterange_hit pathnameOf resolve baseUrl st p.1 p.2 hbadp]
        at hsome
      exact hlsScanGo_byterange_mono pathnameOf resolve baseUrl rest _ st2 rfl hsome
    · unfold hlsScanGo at hsome
      split at hsome
      · exact absurd hsome (by simp)
      · exact ih _ st2 ⟨p, hrest, hbadp⟩ hsome

lemma hlsScanGo_part (pathnameOf : String → Option String)
    (resolve : String → String → String) (baseUrl : String) :
    ∀ (ps : List (Nat × String)) (st st2 : HlsScanState),
      (∃ p ∈ ps, isLowLatencyTagLine p.2 = true ∧ isByterangeLine p.2 = false) →
      hlsScanGo pathnameOf resolve baseUrl ps st = some st2 →
      st2.hasPartTag = true := by
  intro ps
  induction ps with
  | nil =>
    intro st st2 hbad _
    obtain ⟨p, hp, _⟩ := hbad
    exact absurd hp (List.not_mem_nil p)
  | cons q rest ih =>
    intro st st2 hbad hsome
    obtain ⟨p, hp, hbadp⟩ := hbad
    rcases List.mem_cons.mp hp with hq | hrest
    · unfold hlsScanGo at hsome
      rw [← hq] at hsome
      rw [hlsScanLine_part_hit pathnameOf resolve baseUrl st p.1 p.2 hbadp.1 hbadp.2]
        at hsome
      exact hlsScanGo_part_mono pathnameOf resolve baseUrl rest _ st2 rfl hsome
    · unfold hlsScanGo at hsome
      split at hsome
      · exact absurd hsome (by simp)
      · exact ih _ st2 ⟨p, hrest, hbadp⟩ hsome

lemma enumFrom_mem_of_mem (l : String) :
    ∀ (lines : List String) (k : Nat), l ∈ lines →
      ∃ i, (i, l) ∈ enumFrom k lines := by
  intro lines
  induction lines with
  | nil => intro k h; exact absurd h (List.not_mem_nil l)
  | cons x xs ih =>
    intro k h
    rcases List.mem_cons.mp h with hx | hxs
    · exact ⟨k, by rw [hx]; exact List.mem_cons_self _ _⟩
    · obtain ⟨i, hi⟩ := ih (k + 1) hxs
      exact ⟨i, List.mem_cons_of_mem _ hi⟩

/-- C5: the parallel segment downloader declines to engage (returns no
result, so the caller falls back to manifest-based transcoding) whenever
the playlist is not VOD, contains an `#EXT-X-BYTERANGE`, `#EXT-X-PART` or
`#EXT-X-PRELOAD-HINT` tag (regardless of segment count), contains an
`#EXT-X-KEY` with a `KEYFORMAT` other than identity, or classifies fewer
than `DEFAULT_SEGMENT_MIN_COUNT = 6` segment lines. -/
theorem downloadPlan_declines (pathnameOf : String → Option String)
    (resolve : String → String → String) (content baseUrl : String)
    (hdecline :
      isVodPlaylist content = false ∨
      (∃ l ∈ splitLines content, isByterangeLine l = true) ∨
      (∃ l ∈ splitLines content, isLowLatencyTagLine l = true ∧
        isByterangeLine l = false) ∨
      (∃ l ∈ splitLines content, isNonIdentityKeyLine l = true) ∨
      (∀ st, hlsScanGo pathnameOf resolve baseUrl
          (enumFrom 0 (splitLines content)) initHlsScanState = some st →
        st.segments.length < DEFAULT_SEGMENT_MIN_COUNT)) :
    downloadPlan pathnameOf resolve content baseUrl = none := by
  unfold downloadPlan
  by_cases hvd : (isVodPlaylist content && hasMediaSegments content) = true
  · rw [hvd]
    simp only [Bool.not_true, Bool.false_eq_true, if_false]
    rcases hdecline with h1 | h2 | h3 | h4 | h5
    · rw [Bool.and_eq_true] at hvd
      rw [hvd.1] at h1
      exact absurd h1 (by simp)
    · obtain ⟨l, hl, hbad⟩ := h2
      obtain ⟨i, hi⟩ := enumFrom_mem_of_mem l (splitLines content) 0 hl
      split
      · rfl
      · rename_i st hst
        have := hlsScanGo_byterange pathnameOf resolve baseUrl _ _ st
          ⟨(i, l), hi, hbad⟩ hst
        rw [if_pos (by rw [this]; rfl)]
    · obtain ⟨l, hl, hbad⟩ := h3
      obtain ⟨i, hi⟩ := enumFrom_mem_of_mem l (splitLines content) 0 hl
      split
      · rfl
      · rename_i st hst
        have := hlsScanGo_part pathnameOf resolve baseUrl _ _ st
          ⟨(i, l), hi, hbad⟩ hst
        rw [if_pos (by rw [this]; simp)]
    · obtain ⟨l, hl, hbad⟩ := h4
      obtain ⟨i, hi⟩ := enumFrom_mem_of_mem l (splitLines content) 0 hl
      rw [hlsScanGo_badkey pathnameOf resolve baseUrl _ _ ⟨(i, l), hi, hbad⟩]
    · split
      · rfl
      · rename_i st hst
        have hlt := h5 st hst
        by_cases hfl : (st.hasByterange || st.hasPartTag) = true
        · rw [if_pos hfl]
        · rw [if_neg hfl, if_pos hlt]
  · rw [Bool.not_eq_true] at hvd
    rw [hvd]
    rfl

/-- Witness for C5: a VOD playlist with plenty of segments but a
byte-range tag is declined. -/
theorem downloadPlan_declines_witness :
    downloadPlan (fun _ => some "/s.ts") (fun _ l => l)
      "#EXTM3U\n#EXT-X-BYTERANGE:100@0\n#EXTINF:4,\ns1.ts\n#EXTINF:4,\ns2.ts\n#EXTINF:4,\ns3.ts\n#EXTINF:4,\ns4.ts\n#EXTINF:4,\ns5.ts\n#EXTINF:4,\ns6.ts\n#EXT-X-ENDLIST"
      "http://h/p.m3u8" = none := by
  exact downloadPlan_declines (fun _ => some "/s.ts") (fun _ l => l)
    "#EXTM3U\n#EXT-X-BYTERANGE:100@0\n#EXTINF:4,\ns1.ts\n#EXTINF:4,\ns2.ts\n#EXTINF:4,\ns3.ts\n#EXTINF:4,\ns4.ts\n#EXTINF:4,\ns5.ts\n#EXTINF:4,\ns6.ts\n#EXT-X-ENDLIST"
    "http://h/p.m3u8"
    (Or.inr (Or.inl (by decide)))

lemma toLower_ne_dot (c : Char) (h : c ≠ '.') : Char.toLower c ≠ '.' := by
  intro hl
  apply h
  unfold Char.toLower at hl
  dsimp only at hl
  split_ifs at hl with hc
  · exfalso
    have hv := congrArg Char.toNat hl
    rw [show Char.toNat (Char.ofNat (c.toNat + 32)) = c.toNat + 32 from by
      unfold Char.ofNat
      rw [dif_pos (by left; omega : Nat.isValidChar (c.toNat + 32))]
      rfl] at hv
    rw [show Char.toNat ('.') = 46 from rfl] at hv
    omega
  · exact hl

lemma lowerList_dotfree (l : List Char) (h : ∀ c ∈ l, c ≠ '.') :
    ∀ c ∈ lowerList l, c ≠ '.' := by
  intro c hc
  rcases List.mem_map.mp hc with ⟨d, hd, hdc⟩
  rw [← hdc]
  exact toLower_ne_dot d (h d hd)

lemma asString_data_eq (s : String) : s.data.asString = s := by
  cases s
  rfl

lemma posixExtname_shape (pn : String) :
    posixExtname pn = "" ∨
    ∃ tail, (posixExtname pn).data = '.' :: tail ∧ ∀ c ∈ tail, c ≠ '.' := by
  unfold posixExtname
  dsimp only
  split_ifs with h1 h2
  · exact Or.inl rfl
  · exact Or.inl rfl
  · refine Or.inr ⟨_, rfl, ?_⟩
    intro c hc
    rw [List.mem_reverse] at hc
    have := List.mem_takeWhile_imp hc
    simpa using this

/-- A local file name made of a dot-free stem and a single safe extension. -/
def safeLocalName (s : String) : Prop :=
  ∃ pfx tail, (∀ c ∈ pfx, c ≠ '.') ∧ (∀ c ∈ tail, c ≠ '.') ∧
    s.data = pfx ++ '.' :: tail ∧
    ('.' :: tail).asString ∉ INVALID_SEGMENT_EXTENSIONS

lemma getSafe_shape (pathnameOf : String → Option String) (u : String) :
    ∃ tail, (getSafeSegmentExtension pathnameOf u).data = '.' :: tail ∧
      (∀ c ∈ tail, c ≠ '.') ∧
      getSafeSegmentExtension pathnameOf u ∉ INVALID_SEGMENT_EXTENSIONS := by
  unfold getSafeSegmentExtension
  split
  · exact ⟨['t', 's'], rfl, by decide, by decide⟩
  · rename_i pn hpn
    dsimp only
    split_ifs with h1
    · exact ⟨['t', 's'], rfl, by decide, by decide⟩
    · simp only [Bool.or_eq_true, decide_eq_true_eq, not_or] at h1
      rcases posixExtname_shape pn with he | ⟨tail, htail, hdf⟩
      · exfalso
        apply h1.1
        rw [he]
        rfl
      · have hdl : (jsLower (posixExtname pn)).data = '.' :: lowerList tail := by
          rw [show (jsLower (posixExtname pn)).data
            = lowerList (posixExtname pn).data from rfl, htail]
          rfl
        refine ⟨lowerList tail, hdl, lowerList_dotfree tail hdf, ?_⟩
        intro hmem
        apply h1.2
        have : List.contains INVALID_SEGMENT_EXTENSIONS (jsLower (posixExtname pn))
            = true := by
          apply List.elem_eq_true_of_mem
          exact hmem
        exact this

lemma safeLocalName_of_ext (pfxStr : String) (pathnameOf : String → Option String)
    (u : String) (hp : ∀ c ∈ pfxStr.data, c ≠ '.') :
    safeLocalName (pfxStr ++ getSafeSegmentExtension pathnameOf u) := by
  obtain ⟨tail, hdata, hdf, hni⟩ := getSafe_shape pathnameOf u
  have heq : ('.' :: tail).asString = getSafeSegmentExtension pathnameOf u := by
    rw [← hdata]
    exact asString_data_eq _
  refine ⟨pfxStr.data, tail, hp, hdf, by rw [strData_append, hdata], ?_⟩
  rw [heq]
  exact hni

lemma safeLocalName_prepend (a s : String) (ha : ∀ c ∈ a.data, c ≠ '.')
    (hs : safeLocalName s) : safeLocalName (a ++ s) := by
  obtain ⟨pfx, tail, hp, ht, hdata, hni⟩ := hs
  refine ⟨a.data ++ pfx, tail, ?_, ht, ?_, hni⟩
  · intro c hc
    rcases List.mem_append.mp hc with h1 | h2
    · exact ha c h1
    · exact hp c h2
  · rw [strData_append, hdata, List.append_assoc]

lemma natToCharsGo_dotfree (fuel : Nat) :
    ∀ n, ∀ c ∈ natToCharsGo fuel n, c ≠ '.' := by
  induction fuel with
  | zero => intro n c hc; exact absurd hc (List.not_mem_nil c)
  | succ f ih =>
    intro n c hc
    cases n with
    | zero => exact absurd hc (List.not_mem_nil c)
    | succ m =>
      unfold natToCharsGo at hc
      rcases List.mem_append.mp hc with h1 | h2
      · exact ih _ c h1
      · rcases List.mem_cons.mp h2 with h3 | h4
        · rw [h3]
          have hr : (m + 1) % 10 < 10 := Nat.mod_lt _ (by omega)
          intro hdot
          have hv := congrArg Char.toNat hdot
          rw [show Char.toNat (Char.ofNat (48 + (m + 1) % 10))
            = 48 + (m + 1) % 10 from by
              unfold Char.ofNat
              rw [dif_pos (by left; omega : Nat.isValidChar (48 + (m + 1) % 10))]
              rfl] at hv
          rw [show Char.toNat ('.') = 46 from rfl] at hv
          omega
        · exact absurd h4 (List.not_mem_nil c)

lemma padZeros5_dotfree (n : Nat) : ∀ c ∈ (padZeros5 n).data, c ≠ '.' := by
  intro c hc
  unfold padZeros5 at hc
  rw [show ((List.replicate (5 - (natToChars n).length) '0' ++ natToChars n).asString).data
    = List.replicate (5 - (natToChars n).length) '0' ++ natToChars n from rfl] at hc
  rcases List.mem_append.mp hc with h1 | h2
  · rw [List.eq_of_mem_replicate h1]
    decide
  · unfold natToChars at h2
    split at h2
    · rcases List.mem_singleton.mp h2 with h3
      rw [h3]; decide
    · exact natToCharsGo_dotfree _ _ c h2

lemma natToChars_dotfree (n : Nat) : ∀ c ∈ natToChars n, c ≠ '.' := by
  intro c hc
  unfold natToChars at hc
  split at hc
  · rcases List.mem_singleton.mp hc with h3
    rw [h3]; decide
  · exact natToCharsGo_dotfree _ _ c hc

lemma startsWith_dotfree_eq :
    ∀ (it rt : List Char), (∀ c ∈ it, c ≠ '.') → (∀ c ∈ rt, c ≠ '.') →
      ∀ rest, listStartsWith (it ++ ['.']) (rt ++ '.' :: rest) = true → it = rt := by
  intro it
  induction it with
  | nil =>
    intro rt _ hrt rest h
    cases rt with
    | nil => rfl
    | cons r0 rt2 =>
      rw [List.nil_append, List.cons_append] at h
      simp only [listStartsWith, Bool.and_eq_true, decide_eq_true_eq] at h
      exact absurd h.1.symm (hrt r0 (List.mem_cons_self r0 rt2))
  | cons i0 it2 ih =>
    intro rt hit hrt rest h
    cases rt with
    | nil =>
      rw [List.nil_append, List.cons_append] at h
      simp only [listStartsWith, Bool.and_eq_true, decide_eq_true_eq] at h
      exact absurd h.1 (hit i0 (List.mem_cons_self i0 it2))
    | cons r0 rt2 =>
      rw [List.cons_append, List.cons_append] at h
      simp only [listStartsWith, Bool.and_eq_true, decide_eq_true_eq] at h
      have := ih rt2 (fun c hc => hit c (List.mem_cons_of_mem i0 hc))
        (fun c hc => hrt c (List.mem_cons_of_mem r0 hc)) rest h.2
      rw [h.1, this]

lemma invalid_ext_shape :
    ∀ img ∈ INVALID_SEGMENT_EXTENSIONS,
      ∃ imgtail, img.data = '.' :: imgtail ∧ ∀ c ∈ imgtail, c ≠ '.' := by
  intro img himg
  fin_cases himg
  all_goals exact ⟨_, rfl, by decide⟩

lemma no_image_suffix (pfx tail : List Char)
    ( _hp : ∀ c ∈ pfx, c ≠ '.') (ht : ∀ c ∈ tail, c ≠ '.')
    (hni : ('.' :: tail).asString ∉ INVALID_SEGMENT_EXTENSIONS) :
    ∀ img ∈ INVALID_SEGMENT_EXTENSIONS,
      strEndsWith (pfx ++ '.' :: tail).asString img = false := by
  intro img himg
  obtain ⟨imgtail, hidata, hidf⟩ := invalid_ext_shape img himg
  by_contra hends
  rw [Bool.not_eq_false] at hends
  unfold strEndsWith listEndsWith at hends
  rw [show ((pfx ++ '.' :: tail).asString).data = pfx ++ '.' :: tail from rfl,
    hidata] at hends
  rw [show ('.' :: imgtail).reverse = imgtail.reverse ++ ['.'] from by simp,
    show (pfx ++ '.' :: tail).reverse = tail.reverse ++ '.' :: pfx.reverse from by
      simp] at hends
  have heq := startsWith_dotfree_eq imgtail.reverse tail.reverse
    (fun c hc => hidf c (List.mem_reverse.mp hc))
    (fun c hc => ht c (List.mem_reverse.mp hc)) pfx.reverse hends
  have : imgtail = tail := by
    have := congrArg List.reverse heq
    simpa using this
  apply hni
  rw [← this, ← hidata]
  rw [asString_data_eq img]
  exact himg

lemma safeLocalName_no_image (s : String) (hs : safeLocalName s) :
    ∀ img ∈ INVALID_SEGMENT_EXTENSIONS, strEndsWith s img = false := by
  obtain ⟨pfx, tail, hp, ht, hdata, hni⟩ := hs
  intro img himg
  have := no_image_suffix pfx tail hp ht hni img himg
  rw [show (pfx ++ '.' :: tail).asString = s from by
    rw [← hdata]; exact asString_data_eq s] at this
  exact this


lemma lookup_mem (l : List (String × String)) (k v : String)
    (h : l.lookup k = some v) : (k, v) ∈ l := by
  induction l with
  | nil => exact absurd h (by simp [List.lookup])
  | cons p rest ih =>
    obtain ⟨a, b⟩ := p
    simp only [List.lookup] at h
    split at h
    · rename_i hbeq
      injection h with h2
      rw [eq_of_beq hbeq, ← h2]
      exact List.mem_cons_self _ _
    · exact List.mem_cons_of_mem _ (ih h)

lemma segName_safe (pathnameOf : String → Option String) (n : Nat)
    (resolved : String) :
    safeLocalName ("segments/" ++
      ("seg_" ++ padZeros5 n ++ getSafeSegmentExtension pathnameOf resolved)) := by
  apply safeLocalName_prepend
  · decide
  · apply safeLocalName_of_ext
    intro c hc
    rw [strData_append] at hc
    rcases List.mem_append.mp hc with h1 | h2
    · exact (by decide : ∀ c ∈ "seg_".data, c ≠ '.') c h1
    · exact padZeros5_dotfree n c h2

lemma mapVal_safe (pathnameOf : String → Option String) (n : Nat)
    (resolved : String) :
    safeLocalName ("init_" ++ (natToChars n).asString ++
      getSafeSegmentExtension pathnameOf resolved) := by
  apply safeLocalName_of_ext
  intro c hc
  rw [strData_append] at hc
  rcases List.mem_append.mp hc with h1 | h2
  · exact (by decide : ∀ c ∈ "init_".data, c ≠ '.') c h1
  · exact natToChars_dotfree n c h2

lemma keyVal_safe (n : Nat) :
    safeLocalName ("key_" ++ (natToChars n).asString ++ ".key") := by
  refine ⟨("key_" ++ (natToChars n).asString).data, ['k', 'e', 'y'], ?_,
    by decide, ?_, by decide⟩
  · intro c hc
    rw [strData_append] at hc
    rcases List.mem_append.mp hc with h1 | h2
    · exact (by decide : ∀ c ∈ "key_".data, c ≠ '.') c h1
    · exact natToChars_dotfree n c h2
  · rw [strData_append]

lemma keyMap2_safe (st : HlsScanState) (resolved : String)
    (hkm : ∀ kv ∈ st.keyMap, safeLocalName kv.2) :
    ∀ kv ∈ (if (st.keyMap.map (fun e => e.1)).contains resolved then st.keyMap
      else st.keyMap ++
        [(resolved, "key_" ++ (natToChars (st.keyMap.length + 1)).asString ++ ".key")]),
      safeLocalName kv.2 := by
  split
  · exact hkm
  · intro kv hkv
    rcases List.mem_append.mp hkv with h1 | h2
    · exact hkm kv h1
    · rw [List.mem_singleton.mp h2]
      exact keyVal_safe _

lemma mapMap2_safe (pathnameOf : String → Option String) (st : HlsScanState)
    (resolved : String) (hmm : ∀ kv ∈ st.mapMap, safeLocalName kv.2) :
    ∀ kv ∈ (if (st.mapMap.map (fun e => e.1)).contains resolved then st.mapMap
      else st.mapMap ++
        [(resolved, "init_" ++ (natToChars (st.mapMap.length + 1)).asString ++
          getSafeSegmentExtension pathnameOf resolved)]),
      safeLocalName kv.2 := by
  split
  · exact hmm
  · intro kv hkv
    rcases List.mem_append.mp hkv with h1 | h2
    · exact hmm kv h1
    · rw [List.mem_singleton.mp h2]
      exact mapVal_safe pathnameOf _ resolved

lemma hlsScanLine_safe (pathnameOf : String → Option String)
    (resolve : String → String → String) (baseUrl : String)
    (st st2 : HlsScanState) (idx : Nat) (l : String)
    (h : hlsScanLine pathnameOf resolve baseUrl st idx l = some st2)
    (hsegs : ∀ e ∈ st.segments, safeLocalName e.2.2)
    (hkeys : ∀ e ∈ st.keys, safeLocalName e.2.2)
    (hmaps : ∀ e ∈ st.maps, safeLocalName e.2.2)
    (hkm : ∀ kv ∈ st.keyMap, safeLocalName kv.2)
    (hmm : ∀ kv ∈ st.mapMap, safeLocalName kv.2) :
    (∀ e ∈ st2.segments, safeLocalName e.2.2) ∧
    (∀ e ∈ st2.keys, safeLocalName e.2.2) ∧
    (∀ e ∈ st2.maps, safeLocalName e.2.2) ∧
    (∀ kv ∈ st2.keyMap, safeLocalName kv.2) ∧
    (∀ kv ∈ st2.mapMap, safeLocalName kv.2) := by
  unfold hlsScanLine at h
  dsimp only at h
  split at h
  · injection h with h2
    rw [← h2]
    exact ⟨hsegs, hkeys, hmaps, hkm, hmm⟩
  · split at h
    · injection h with h2
      rw [← h2]
      exact ⟨hsegs, hkeys, hmaps, hkm, hmm⟩
    · split at h
      · injection h with h2
        rw [← h2]
        exact ⟨hsegs, hkeys, hmaps, hkm, hmm⟩
      · split at h
        · split at h
          · exact absurd h (by simp)
          · split at h
            · split at h
              · split at h
                · rename_i hlk
                  injection h with h2
                  rw [← h2]
                  refine ⟨hsegs, ?_, hmaps, keyMap2_safe st _ hkm, hmm⟩
                  intro e he
                  rcases List.mem_append.mp he with h1 | h2m
                  · exact hkeys e h1
                  · rw [List.mem_singleton.mp h2m]
                    apply safeLocalName_prepend
                    · decide
                    · exact keyMap2_safe st _ hkm _ (lookup_mem _ _ _ hlk)
                · injection h with h2
                  rw [← h2]
                  exact ⟨hsegs, hkeys, hmaps, keyMap2_safe st _ hkm, hmm⟩
              · injection h with h2
                rw [← h2]
                exact ⟨hsegs, hkeys, hmaps, hkm, hmm⟩
            · injection h with h2
              rw [← h2]
              exact ⟨hsegs, hkeys, hmaps, hkm, hmm⟩
        · split at h
          · split at h
            · split at h
              · split at h
                · rename_i hlk
                  injection h with h2
                  rw [← h2]
                  refine ⟨hsegs, hkeys, ?_, hkm, mapMap2_safe pathnameOf st _ hmm⟩
                  intro e he
                  rcases List.mem_append.mp he with h1 | h2m
                  · exact hmaps e h1
                  · rw [List.mem_singleton.mp h2m]
                    apply safeLocalName_prepend
                    · decide
                    · exact mapMap2_safe pathnameOf st _ hmm _ (lookup_mem _ _ _ hlk)
                · injection h with h2
                  rw [← h2]
                  exact ⟨hsegs, hkeys, hmaps, hkm, mapMap2_safe pathnameOf st _ hmm⟩
              · injection h with h2
                rw [← h2]
                exact ⟨hsegs, hkeys, hmaps, hkm, hmm⟩
            · injection h with h2
              rw [← h2]
              exact ⟨hsegs, hkeys, hmaps, hkm, hmm⟩
          · split at h
            · injection h with h2
              rw [← h2]
              exact ⟨hsegs, hkeys, hmaps, hkm, hmm⟩
            · injection h with h2
              rw [← h2]
              refine ⟨?_, hkeys, hmaps, hkm, hmm⟩
              intro e he
              rcases List.mem_append.mp he with h1 | h2m
              · exact hsegs e h1
              · rw [List.mem_singleton.mp h2m]
                exact segName_safe pathnameOf _ _

lemma hlsScanGo_safe (pathnameOf : String → Option String)
    (resolve : String → String → String) (baseUrl : String) :
    ∀ (ps : List (Nat × String)) (st st2 : HlsScanState),
      hlsScanGo pathnameOf resolve baseUrl ps st = some st2 →
      (∀ e ∈ st.segments, safeLocalName e.2.2) →
      (∀ e ∈ st.keys, safeLocalName e.2.2) →
      (∀ e ∈ st.maps, safeLocalName e.2.2) →
      (∀ kv ∈ st.keyMap, safeLocalName kv.2) →
      (∀ kv ∈ st.mapMap, safeLocalName kv.2) →
      (∀ e ∈ st2.segments, safeLocalName e.2.2) ∧
      (∀ e ∈ st2.keys, safeLocalName e.2.2) ∧
      (∀ e ∈ st2.maps, safeLocalName e.2.2) ∧
      (∀ kv ∈ st2.keyMap, safeLocalName kv.2) ∧
      (∀ kv ∈ st2.mapMap, safeLocalName kv.2) := by
  intro ps
  induction ps with
  | nil =>
    intro st st2 hsome h1 h2 h3 h4 h5
    injection hsome with he
    rw [← he]
    exact ⟨h1, h2, h3, h4, h5⟩
  | cons p rest ih =>
    intro st st2 hsome h1 h2 h3 h4 h5
    unfold hlsScanGo at hsome
    split at hsome
    · exact absurd hsome (by simp)
    · rename_i st3 hst3
      obtain ⟨g1, g2, g3, g4, g5⟩ :=
        hlsScanLine_safe pathnameOf resolve baseUrl st st3 p.1 p.2 hst3 h1 h2 h3 h4 h5
      exact ih st3 st2 hsome g1 g2 g3 g4 g5

lemma downloadPlan_scan (pathnameOf : String → Option String)
    (resolve : String → String → String) (content baseUrl : String)
    (st : HlsScanState)
    (h : downloadPlan pathnameOf resolve content baseUrl = some st) :
    hlsScanGo pathnameOf resolve baseUrl (enumFrom 0 (splitLines content))
      initHlsScanState = some st := by
  unfold downloadPlan at h
  split at h
  · exact absurd h (by simp)
  · split at h
    · exact absurd h (by simp)
    · rename_i st0 hst0
      split_ifs at h
      injection h with he
      rw [← he]
      exact hst0

lemma enumFrom_snd_mem :
    ∀ (lines : List String) (k : Nat) (p : Nat × String),
      p ∈ enumFrom k lines → p.2 ∈ lines := by
  intro lines
  induction lines with
  | nil => intro k p h; exact absurd h (List.not_mem_nil p)
  | cons x xs ih =>
    intro k p h
    rcases List.mem_cons.mp h with h1 | h2
    · rw [h1]
      exact List.mem_cons_self _ _
    · exact List.mem_cons_of_mem _ (ih (k + 1) p h2)

lemma lineAssign_mem (entries : List (Nat × String × String)) (i : Nat) (v : String)
    (h : lineAssign entries i = some v) : ∃ e ∈ entries, e.2.2 = v := by
  unfold lineAssign at h
  rw [Option.map_eq_some'] at h
  obtain ⟨e, he, hev⟩ := h
  exact ⟨e, List.mem_reverse.mp (List.mem_of_find?_eq_some he), hev⟩

lemma rewriteLine_cases (st : HlsScanState) (i : Nat) (l : String) :
    rewriteLine st i l = l ∨
    (∃ e ∈ st.segments, rewriteLine st i l = e.2.2) ∨
    (∃ lp, rewriteLine st i l = replaceUriAttribute l lp ∧
      ((∃ e ∈ st.keys, e.2.2 = lp) ∨ (∃ e ∈ st.maps, e.2.2 = lp))) := by
  unfold rewriteLine
  cases hk : lineAssign st.keys i with
  | some v =>
    exact Or.inr (Or.inr ⟨v, rfl, Or.inl (lineAssign_mem _ _ _ hk)⟩)
  | none =>
    cases hm : lineAssign st.maps i with
    | some v =>
      exact Or.inr (Or.inr ⟨v, rfl, Or.inr (lineAssign_mem _ _ _ hm)⟩)
    | none =>
      cases hs : lineAssign st.segments i with
      | some v =>
        obtain ⟨e, hmem, hev⟩ := lineAssign_mem _ _ _ hs
        exact Or.inr (Or.inl ⟨e, hmem, by rw [← hev]⟩)
      | none =>
        exact Or.inl rfl

/-- C10: whenever the parallel segment downloader engages on a playlist, the
safe-extension helper maps a URL whose path fails to parse, has no extension,
or carries an image extension to the fallback extension, every local file name
assigned to a segment or init-map download carries no image extension as a
suffix, and every line of the rewritten local manifest is either an original
playlist line, a segment local path, or a tag line whose URI was replaced by a
local path free of image-extension suffixes. -/
theorem downloadPlan_safe_extensions (pathnameOf : String → Option String)
    (resolve : String → String → String) (content baseUrl : String)
    (st : HlsScanState)
    (h : downloadPlan pathnameOf resolve content baseUrl = some st) :
    (∀ u, pathnameOf u = none → getSafeSegmentExtension pathnameOf u = ".ts") ∧
    (∀ u pn, pathnameOf u = some pn →
      (jsLower (posixExtname pn) = "" ∨
        jsLower (posixExtname pn) ∈ INVALID_SEGMENT_EXTENSIONS) →
      getSafeSegmentExtension pathnameOf u = ".ts") ∧
    (∀ e ∈ st.segments, ∀ img ∈ INVALID_SEGMENT_EXTENSIONS,
      strEndsWith e.2.2 img = false) ∧
    (∀ e ∈ st.maps, ∀ img ∈ INVALID_SEGMENT_EXTENSIONS,
      strEndsWith e.2.2 img = false) ∧
    (∀ l2 ∈ rewriteLocalManifest (splitLines content) st,
      l2 ∈ splitLines content ∨
      (∃ e ∈ st.segments, l2 = e.2.2) ∨
      (∃ orig lp, l2 = replaceUriAttribute orig lp ∧
        ∀ img ∈ INVALID_SEGMENT_EXTENSIONS, strEndsWith lp img = false)) := by
  have hscan := downloadPlan_scan pathnameOf resolve content baseUrl st h
  obtain ⟨hsegs, hkeys, hmaps, _, _⟩ :=
    hlsScanGo_safe pathnameOf resolve baseUrl _ initHlsScanState st hscan
      (fun e he => absurd he (List.not_mem_nil e))
      (fun e he => absurd he (List.not_mem_nil e))
      (fun e he => absurd he (List.not_mem_nil e))
      (fun kv hkv => absurd hkv (List.not_mem_nil kv))
      (fun kv hkv => absurd hkv (List.not_mem_nil kv))
  refine ⟨?_, ?_, ?_, ?_, ?_⟩
  · intro u hu
    unfold getSafeSegmentExtension
    rw [hu]
  · intro u pn hpn hbad
    unfold getSafeSegmentExtension
    rw [hpn]
    dsimp only
    rcases hbad with hb | hb
    · rw [if_pos (by rw [hb]; simp)]
    · rw [if_pos (by
        simp only [Bool.or_eq_true]
        exact Or.inr (List.elem_eq_true_of_mem hb))]
  · intro e he img himg
    exact safeLocalName_no_image _ (hsegs e he) img himg
  · intro e he img himg
    exact safeLocalName_no_image _ (hmaps e he) img himg
  · intro l2 hl2
    unfold rewriteLocalManifest at hl2
    rw [List.mem_map] at hl2
    obtain ⟨p, hp, hpe⟩ := hl2
    rcases rewriteLine_cases st p.1 p.2 with hc | hc | hc
    · left
      rw [← hpe, hc]
      exact enumFrom_snd_mem (splitLines content) 0 p hp
    · obtain ⟨e, hmem, heq⟩ := hc
      exact Or.inr (Or.inl ⟨e, hmem, by rw [← hpe, heq]⟩)
    · obtain ⟨lp, heq, hor⟩ := hc
      refine Or.inr (Or.inr ⟨p.2, lp, by rw [← hpe, heq], ?_⟩)
      intro img himg
      rcases hor with ⟨e, hmem, hev⟩ | ⟨e, hmem, hev⟩
      · rw [← hev]
        exact safeLocalName_no_image _ (hkeys e hmem) img himg
      · rw [← hev]
        exact safeLocalName_no_image _ (hmaps e hmem) img himg

/-- A six-segment VOD playlist whose segment URLs all resolve to image paths. -/
def cwWitness : String :=
  "#EXTM3U\n#EXT-X-MAP:URI=\"init.mp4\"\n#EXTINF:4,\ns1.jpg\n#EXTINF:4,\ns2.jpg\n#EXTINF:4,\ns3.jpg\n#EXTINF:4,\ns4.jpg\n#EXTINF:4,\ns5.jpg\n#EXTINF:4,\ns6.jpg\n#EXT-X-ENDLIST"

/-- The plan state computed for `cwWitness`. -/
def stWitness : HlsScanState :=
  ⟨[(3, "s1.jpg", "segments/seg_00001.ts"), (5, "s2.jpg", "segments/seg_00002.ts"),
    (7, "s3.jpg", "segments/seg_00003.ts"), (9, "s4.jpg", "segments/seg_00004.ts"),
    (11, "s5.jpg", "segments/seg_00005.ts"), (13, "s6.jpg", "segments/seg_00006.ts")],
   [], [(1, "init.mp4", "maps/init_1.ts")], [], [("init.mp4", "init_1.ts")],
   false, false⟩

/-- Witness for C10: on a playlist of image-path segments with an init map the
plan engages, and every assigned local name is free of image-extension
suffixes. -/
theorem downloadPlan_safe_extensions_witness :
    downloadPlan (fun _ => some "/a/x.jpg") (fun _ l => l) cwWitness "http://h/p.m3u8"
      = some stWitness ∧
    (∀ e ∈ stWitness.segments, ∀ img ∈ INVALID_SEGMENT_EXTENSIONS,
      strEndsWith e.2.2 img = false) ∧
    (∀ e ∈ stWitness.maps, ∀ img ∈ INVALID_SEGMENT_EXTENSIONS,
      strEndsWith e.2.2 img = false) :=
  ⟨by decide,
    (downloadPlan_safe_extensions (fun _ => some "/a/x.jpg") (fun _ l => l)
      cwWitness "http://h/p.m3u8" stWitness (by decide)).2.2.1,
    (downloadPlan_safe_extensions (fun _ => some "/a/x.jpg") (fun _ l => l)
      cwWitness "http://h/p.m3u8" stWitness (by decide)).2.2.2.1⟩

/-- C2: with the quota enabled and `limitPerDay = 3`, starting from a counter
of 0, three consecutive consuming calls are allowed with `remaining` 2, 1, 0;
a fourth consuming call is denied; one refund decrements the counter (and in
general never below zero); a subsequent check-only call reports `remaining = 1`;
and a check-only call never mutates the counter. -/
theorem quota_limit3_scenario :
    checkAndConsumeQuota true 3 false (some 0) = (⟨true, some 2⟩, some 1) ∧
    checkAndConsumeQuota true 3 false (some 1) = (⟨true, some 1⟩, some 2) ∧
    checkAndConsumeQuota true 3 false (some 2) = (⟨true, some 0⟩, some 3) ∧
    checkAndConsumeQuota true 3 false (some 3) = (⟨false, some 0⟩, some 3) ∧
    refundQuota true (some 3) = some 2 ∧
    checkAndConsumeQuota true 3 true (some 2) = (⟨true, some 1⟩, some 2) ∧
    (∀ (le : Bool) (lim : Int) (st : Option Int),
      (checkAndConsumeQuota le lim true st).2 = st) ∧
    (∀ st : Option Int,
      quotaReadCount (refundQuota true st) = max 0 (quotaReadCount st - 1)) := by
  refine ⟨by decide, by decide, by decide, by decide, by decide, by decide, ?_, ?_⟩
  · exact checkOnly_preserves_state
  · exact refund_decrements_never_below_zero

end RondiveTV
